import Mathlib

/-!
# agora-uploader: a shallow embedding of `agora/upload.go`

The definitions below follow the Go functions of `src/agora/upload.go`
(`analyse_paths`, `upload_chunk`, `verifyHash`, `upload_file`,
`zip_and_upload`, `update_import_state` and the progress loop of `upload`).
Everything the Go code obtains from the operating system or from the server
(file sizes, read results, HTTP replies, hashes) is an explicit argument, so
every function is a pure, executable Lean function of its environment.
-/

namespace Agora

/-! ## Basic data -/

/-- A Go `error` value is modelled by its message; `none` is the `nil` error. -/
abbrev GoError := String

/-- Default of the package variable `UPLOAD_CHUCK_SIZE` (100 MiB). -/
def UPLOAD_CHUCK_SIZE : Nat := 100 * 1024 * 1024

/-- Default of the package variable `MAX_ZIP_SIZE` (1 GiB). -/
def MAX_ZIP_SIZE : Nat := 1024 * 1024 * 1024

/-- The Go struct `UploadFile`. -/
structure UploadFile where
  SourcePath : String
  TargetPath : String
  Delete : Bool
  Imported : Bool
deriving DecidableEq, Repr

/-- The Go struct `FlowFile` (the body of a flowfile status reply). -/
structure FlowFile where
  State : Int
  ContentHash : String
deriving DecidableEq, Repr

/-- The Go struct `DataFile`. -/
structure DataFile where
  ID : Int
  Name : String
  Sha1 : String
deriving DecidableEq, Repr

/-- The Go struct `ImportResult`. -/
structure ImportResult where
  DataFiles : List DataFile
deriving DecidableEq, Repr

/-- The Go struct `UploadProgressTasks`. -/
structure UploadProgressTasks where
  Count : Int
  Finished : Int
  Error : Int
  Ids : List Int
deriving DecidableEq, Repr

/-- The Go struct `UploadProgress`. -/
structure UploadProgress where
  State : Int
  Progress : Int
  Tasks : UploadProgressTasks
deriving DecidableEq, Repr

/-- The zero value `UploadProgress{}`. -/
def UploadProgress.zero : UploadProgress :=
  { State := 0, Progress := 0, Tasks := { Count := 0, Finished := 0, Error := 0, Ids := [] } }

/-- What a `GetRequest` gives back: a transport error, or a response with its
status code and the decoded body (`body` is the outcome of reading and
unmarshalling the body; it is only looked at where the Go code does). -/
inductive HttpReply (α : Type) where
  | transport (e : GoError)
  | response (status : Nat) (body : Except GoError α)

/-! ## float64 arithmetic used by the chunk count

`upload_file` computes `int(math.Ceil(float64(filesize) / float64(UPLOAD_CHUCK_SIZE)))`.
The three float64 operations are modelled exactly (IEEE 754 binary64, round to
nearest, ties to even) on positive rationals `n / d`; all values that occur are
far inside the normal range, so neither overflow nor subnormals arise. -/

/-- A non-negative dyadic rational `num / den` (the value of a float64). -/
structure F64Val where
  num : Nat
  den : Nat
deriving DecidableEq, Repr

/-- Least `a` (searched upwards from the given start) with `2^52 * d ≤ n * 2^a`. -/
def upShift (n d : Nat) : Nat → Nat → Nat
  | 0, a => a
  | fuel + 1, a => if 2 ^ 52 * d ≤ n * 2 ^ a then a else upShift n d fuel (a + 1)

/-- Least `b` (searched upwards from the given start) with `n < 2^53 * d * 2^b`. -/
def downShift (n d : Nat) : Nat → Nat → Nat
  | 0, b => b
  | fuel + 1, b => if n < 2 ^ 53 * d * 2 ^ b then b else downShift n d fuel (b + 1)

/-- The float64 nearest to the positive rational `n / d` (ties to even): the
ratio is scaled by a power of two so that its integer part has exactly 53 bits,
rounded to an integer there, and scaled back. -/
def roundF64 (n d : Nat) : F64Val :=
  let a := upShift n d 1100 0
  let b := downShift (n * 2 ^ a) d 1100 0
  let scaledNum := n * 2 ^ a
  let scaledDen := d * 2 ^ b
  let m0 := scaledNum / scaledDen
  let r := scaledNum % scaledDen
  let m := if scaledDen < 2 * r ∨ (2 * r = scaledDen ∧ m0 % 2 = 1) then m0 + 1 else m0
  { num := m * 2 ^ b, den := 2 ^ a }

/-- The conversion `float64(x)` of a non-negative integer; the result is again
an integer, returned as such. -/
def float64 (x : Nat) : Nat :=
  if x = 0 then 0 else (roundF64 x 1).num / (roundF64 x 1).den

/-- The float64 quotient `x / y` of two integer-valued float64 numbers, `y > 0`
(a zero divisor, which gives an infinity or a NaN in Go, is not modelled). -/
def f64div (x y : Nat) : F64Val :=
  if x = 0 ∨ y = 0 then { num := 0, den := 1 } else roundF64 x y

/-- The `math.Ceil` of a non-negative float64, an integer-valued float64. -/
def math_Ceil (v : F64Val) : Nat :=
  (v.num + v.den - 1) / v.den

/-- The conversion `int(x)` of a non-negative integer-valued float64, as the
bound of the chunk loop. A value of `2^63` or more does not fit the 64-bit
`int`; Go leaves the result to the implementation, on amd64 it is the most
negative `int`, and the loop `for i := 0; i < nof_chunks; i++` is then not
entered: the bound counts as 0. -/
def int_of_float (v : Nat) : Nat :=
  if v < 2 ^ 63 then v else 0

/-- The chunk count of `upload_file`:
`int(math.Ceil(float64(filesize) / float64(UPLOAD_CHUCK_SIZE)))`. -/
def nof_chunks (filesize chunkSize : Nat) : Nat :=
  int_of_float (math_Ceil (f64div (float64 filesize) (float64 chunkSize)))

/-! ## Chunk upload: `upload_chunk`, `verifyHash`, `upload_file` -/

/-- An `io.Reader` stored in the `values` map of `upload_file`: a `*bytes.Reader`
over the chunk, or a `*strings.Reader` over a field value. A reader holds what
is still unread. -/
inductive Reader where
  | bytes (data : List UInt8)
  | str (s : String)
deriving DecidableEq, Repr

/-- One part of the multipart form written by `upload_chunk`. -/
inductive FormPart where
  | file (key : String) (filename : String) (data : List UInt8)
  | field (key : String) (value : String)
deriving DecidableEq, Repr

/-- A reader after `io.Copy` has read it to its end. -/
def Reader.drain : Reader → Reader
  | .bytes _ => .bytes []
  | .str _ => .str ""

/-- The form part `upload_chunk` writes for one entry of `values`:
`CreateFormFile` for a `*bytes.Reader`, `CreateFormField` otherwise, filled by
`io.Copy` with everything the reader still holds. -/
def formPart (filename : String) : String × Reader → FormPart
  | (key, .bytes d) => .file key filename d
  | (key, .str s) => .field key s

/-- The status of an HTTP response: the code `StatusCode` and the status line
`Status`, such as "200 OK". -/
structure HttpStatus where
  StatusCode : Nat
  Status : String
deriving DecidableEq, Repr

/-- What one call of `upload_chunk` does. -/
structure ChunkCall where
  err : Option GoError
  form : List FormPart
  values : List (String × Reader)
deriving DecidableEq, Repr

/-- The Go function `upload_chunk`. `newRequestErr` is the outcome of
`http.NewRequest`, `reply` the outcome of `client.Do` (a transport error or the
status of the response). All readers of `values` are read to their end
while the form is built; with `fake` nothing is sent. -/
def upload_chunk (newRequestErr : Option GoError) (reply : Except GoError HttpStatus)
    (values : List (String × Reader)) (filename : String) (fake : Bool) : ChunkCall :=
  let form := values.map (formPart filename)
  let values := values.map (fun kv => (kv.1, kv.2.drain))
  match newRequestErr with
  | some e => { err := some e, form := form, values := values }
  | none =>
    if !fake then
      match reply with
      | .error err2 => { err := some err2, form := form, values := values }
      | .ok res =>
        if res.StatusCode ≠ 200 then
          { err := some ("bad status: " ++ res.Status), form := form, values := values }
        else { err := none, form := form, values := values }
    else { err := none, form := form, values := values }

/-- The result of `verifyHash`, with the number of status queries it issued;
`none` for the Go results stands for a loop that is still polling when the
fuel is used up. -/
structure VerifyResult where
  isMatch : Bool
  err : Option GoError
  polls : Nat
deriving DecidableEq, Repr

/-- The loop `for hashServer == "" { ... }` of `verifyHash`; `k` counts the
queries issued so far, one unit of fuel is used per evaluation of the loop
condition. -/
def verifyHash_loop (curFile : String) (hashLocal : String) (flow : Nat → HttpReply FlowFile) :
    Nat → Nat → String → Option VerifyResult
  | 0, _, _ => none
  | fuel + 1, k, hashServer =>
    if hashServer = "" then
      match flow k with
      | .transport e => some { isMatch := false, err := some e, polls := k + 1 }
      | .response status body =>
        if status = 200 then
          match body with
          | .error e => some { isMatch := false, err := some e, polls := k + 1 }
          | .ok data =>
            if data.State = 2 then
              let hashServer := data.ContentHash
              if hashLocal ≠ hashServer then
                verifyHash_loop curFile hashLocal flow fuel (k + 1) hashServer
              else some { isMatch := true, err := none, polls := k + 1 }
            else if data.State = 3 ∨ data.State = 5 then
              some { isMatch := false,
                     err := some ("failed to upload " ++ curFile ++
                                  ": there was an error joining the chunks"),
                     polls := k + 1 }
            else verifyHash_loop curFile hashLocal flow fuel (k + 1) hashServer
        else
          some { isMatch := false,
                 err := some "failed to get the hash of the file from the server",
                 polls := k + 1 }
    else some { isMatch := false, err := none, polls := k }

/-- The Go function `verifyHash`. `urlErr` is the outcome of `url.Parse`,
`hashLocal` that of `sha256Hash(curFile)`, and `flow k` the reply to the `k`-th
status query. -/
def verifyHash (curFile : String) (urlErr : Option GoError) (hashLocal : Except GoError String)
    (flow : Nat → HttpReply FlowFile) (fuel : Nat) : Option VerifyResult :=
  match urlErr with
  | some e => some { isMatch := false, err := some ("error parsing URL: " ++ e), polls := 0 }
  | none =>
    match hashLocal with
    | .error e => some { isMatch := false, err := some e, polls := 0 }
    | .ok h => verifyHash_loop curFile h flow fuel 0 ""

/-- Everything `upload_file` obtains from outside for one unit. -/
structure UploadEnv where
  /-- `os.Stat(file.SourcePath)`: the size, or an error. -/
  stat : Except GoError Nat
  /-- `os.Open(file.SourcePath)`. -/
  openErr : Option GoError
  /-- The bytes of the file as the reads see them. -/
  content : List UInt8
  /-- An I/O error of the read for chunk `i`. -/
  readErr : Nat → Option GoError
  /-- `http.NewRequest` inside `upload_chunk`. -/
  newRequestErr : Option GoError
  /-- `client.Do` for chunk `i` at attempt `k` (counted from 0). -/
  post : Nat → Nat → Except GoError HttpStatus
  /-- `generateUUID()`. -/
  uuid : String
  /-- `filepath.Base`. -/
  base : String → String
  /-- `url.Parse(uploadUrl)` inside `verifyHash`. -/
  urlErr : Option GoError
  /-- `sha256Hash(file.SourcePath)`. -/
  hashLocal : Except GoError String
  /-- The reply to the `k`-th flowfile status query. -/
  flow : Nat → HttpReply FlowFile

/-- What `upload_file` does that can be observed from outside. -/
inductive Event where
  | read (i : Nat) (n : Nat) (err : Option GoError)
  | post (i : Nat) (retries : Nat) (form : List FormPart) (err : Option GoError)
  | verify (polls : Nat)
deriving DecidableEq, Repr

/-- How a call ends: it returns an error value, the process is terminated by
`logrus.Fatalf` (which exits), or it is still polling when the fuel is used up. -/
inductive Outcome where
  | returned (err : Option GoError)
  | fatal (msg : String)
  | pending
deriving DecidableEq, Repr

/-- A run of `upload_file`. `removed` says whether the deferred `os.Remove` ran. -/
structure UploadRun where
  events : List Event
  outcome : Outcome
  removed : Bool
deriving DecidableEq, Repr

/-- The largest number of bytes one read of an `*os.File` delivers: the Go
runtime cuts a longer buffer to `1 << 30` bytes before the read. -/
def maxRW : Nat := 2 ^ 30

/-- The method `r.Read(buffer)` on the opened file at offset `pos`, for a buffer
of `bufLen` bytes: the bytes read and the error. A regular file delivers
`min bufLen maxRW` bytes, fewer at the end of the file, and `io.EOF` once
nothing is left. -/
def file_Read (env : UploadEnv) (bufLen : Nat) (i pos : Nat) : List UInt8 × Option GoError :=
  match env.readErr i with
  | some e => ([], some e)
  | none =>
    if bufLen = 0 then ([], none)
    else if env.content.length ≤ pos then ([], some "EOF")
    else ((env.content.drop pos).take (min bufLen maxRW), none)

/-- The constant `maxRetries` of `upload_file`. -/
def maxRetries : Nat := 3

/-- The map `values` built by `upload_file` for chunk `i`, whose read delivered
`chunk`. -/
def chunk_values (chunkSize filesize nof : Nat) (uuid : String) (file : UploadFile)
    (i : Nat) (chunk : List UInt8) : List (String × Reader) :=
  [ ("file", .bytes chunk),
    ("description", .str ""),
    ("flowChunkNumber", .str (toString i)),
    ("flowChunkSize", .str (toString chunkSize)),
    ("flowCurrentChunkSize", .str (toString chunk.length)),
    ("flowTotalSize", .str (toString filesize)),
    ("flowIdentifier", .str uuid),
    ("flowFilename", .str file.TargetPath),
    ("flowRelativePath", .str file.TargetPath),
    ("flowTotalChunks", .str (toString nof)) ]

/-- State of the chunk loop of `upload_file` when it is left: the flag
`chunk_failed`, the variable `err` declared inside the loop body, and the events. -/
structure LoopResult where
  chunk_failed : Bool
  err : Option GoError
  events : List Event
deriving DecidableEq, Repr

/-- The inner loop `for { err = upload_chunk(...) ... }` of `upload_file` for
chunk `i`. The first argument bounds the number of iterations; `upload_file`
passes `maxRetries`, which the loop never uses up, because it leaves as soon as
`retries >= maxRetries`. -/
def retry_loop (env : UploadEnv) (file : UploadFile) (fake : Bool) (i : Nat) :
    Nat → Nat → List (String × Reader) → LoopResult
  | 0, _, _ => { chunk_failed := true, err := none, events := [] }
  | fuel + 1, retries, values =>
    let call := upload_chunk env.newRequestErr (env.post i retries) values
      (env.base file.SourcePath) fake
    let ev := Event.post i retries call.form call.err
    match call.err with
    | none => { chunk_failed := false, err := none, events := [ev] }
    | some e =>
      let retries := retries + 1
      if retries ≥ maxRetries then { chunk_failed := true, err := some e, events := [ev] }
      else
        let rest := retry_loop env file fake i fuel retries call.values
        { rest with events := ev :: rest.events }

/-- The loop `for i := 0; i < nof_chunks; i++ { ... }` of `upload_file`, entered
with `i`, the file offset `pos` and `left = nof_chunks - i` iterations to go. -/
def chunk_loop (env : UploadEnv) (chunkSize filesize nof : Nat) (file : UploadFile)
    (fake : Bool) : Nat → Nat → Nat → LoopResult
  | 0, _, _ => { chunk_failed := false, err := none, events := [] }
  | left + 1, i, pos =>
    match file_Read env chunkSize i pos with
    | (chunk, some e) =>
      { chunk_failed := true, err := some e, events := [Event.read i chunk.length (some e)] }
    | (chunk, none) =>
      let values := chunk_values chunkSize filesize nof env.uuid file i chunk
      let r := retry_loop env file fake i maxRetries 0 values
      let ev := Event.read i chunk.length none
      if r.chunk_failed then { r with events := ev :: r.events }
      else
        let rest := chunk_loop env chunkSize filesize nof file fake left (i + 1)
          (pos + chunk.length)
        { rest with events := ev :: (r.events ++ rest.events) }

/-- The Go function `upload_file`; `chunkSize` is the value of `UPLOAD_CHUCK_SIZE`
and `fuel` bounds the polling of `verifyHash`.

The variable `err` of the function body is assigned by `os.Stat` and `os.Open`
only: the loop body declares its own `err` (`n, err := r.Read(buffer)`), which
is also the one `upload_chunk` assigns to. The `return err` after the loop is
outside the loop body and so returns the function's `err`, which is `nil`
there. -/
def upload_file (env : UploadEnv) (chunkSize : Nat) (file : UploadFile) (fake : Bool)
    (fuel : Nat) : UploadRun :=
  match env.stat with
  | .error e =>
    { events := [], removed := false,
      outcome := .fatal ("Could not get the file size of " ++ file.SourcePath ++ ": " ++ e) }
  | .ok filesize =>
    let nof := nof_chunks filesize chunkSize
    match env.openErr with
    | some e =>
      { events := [], removed := false,
        outcome := .fatal ("Could not open the file " ++ file.SourcePath ++ ": " ++ e) }
    | none =>
      let err : Option GoError := none
      let loop := chunk_loop env chunkSize filesize nof file fake nof 0 0
      if loop.chunk_failed then
        { events := loop.events, removed := file.Delete, outcome := .returned err }
      else
        match verifyHash file.SourcePath env.urlErr env.hashLocal env.flow fuel with
        | none => { events := loop.events, removed := false, outcome := .pending }
        | some v =>
          let events := loop.events ++ [Event.verify v.polls]
          match v.err with
          | some e => { events := events, removed := file.Delete, outcome := .returned (some e) }
          | none =>
            if !v.isMatch then
              { events := events, removed := file.Delete,
                outcome := .returned (some ("hashes do not match for file " ++ file.SourcePath)) }
            else { events := events, removed := file.Delete, outcome := .returned none }

/-! ### Reading a trace -/

/-- The error values of the upload attempts made for chunk `i`, in order. -/
def postsOf (i : Nat) (evs : List Event) : List (Option GoError) :=
  evs.filterMap (fun ev =>
    match ev with
    | .post j _ _ err => if j = i then some err else none
    | _ => none)

/-- The successful reads of a trace: chunk index and number of bytes. -/
def readsOf (evs : List Event) : List (Nat × Nat) :=
  evs.filterMap (fun ev =>
    match ev with
    | .read i n none => some (i, n)
    | _ => none)

/-- The first upload attempt of every chunk: chunk index and submitted form. -/
def firstPosts (evs : List Event) : List (Nat × List FormPart) :=
  evs.filterMap (fun ev =>
    match ev with
    | .post i 0 form _ => some (i, form)
    | _ => none)

/-- The chunk index an event belongs to (`none` for the hash verification). -/
def Event.chunk : Event → Option Nat
  | .read i _ _ => some i
  | .post i _ _ _ => some i
  | .verify _ => none

/-- Whether an event is the call of `verifyHash`. -/
def Event.isVerify : Event → Bool
  | .verify _ => true
  | _ => false

/-- The error of the upload attempt `k` of chunk `i` (it depends neither on the
form nor on the file name). -/
def attemptErr (env : UploadEnv) (fake : Bool) (i k : Nat) : Option GoError :=
  (upload_chunk env.newRequestErr (env.post i k) [] "" fake).err

/-- The bytes of chunk `i` of a file: `chunkSize` bytes from offset `i * chunkSize`,
fewer at the end of the file. -/
def chunkBytes (content : List UInt8) (chunkSize i : Nat) : List UInt8 :=
  (content.drop (i * chunkSize)).take chunkSize

/-- The form `upload_chunk` submits at the first attempt for chunk `i`. -/
def chunkForm (env : UploadEnv) (chunkSize filesize nof : Nat) (file : UploadFile) (i : Nat) :
    List FormPart :=
  (chunk_values chunkSize filesize nof env.uuid file i (chunkBytes env.content chunkSize i)).map
    (formPart (env.base file.SourcePath))

/-! ### Sample inputs -/

/-- A unit `a.bin` of five bytes. -/
def sampleFile : UploadFile :=
  { SourcePath := "/data/a.bin", TargetPath := "a.bin", Delete := false, Imported := false }

/-- The status of an accepted chunk. -/
def statusOK : HttpStatus := { StatusCode := 200, Status := "200 OK" }

/-- The status of a rejected chunk. -/
def statusServerError : HttpStatus :=
  { StatusCode := 500, Status := "500 Internal Server Error" }

/-- A server that accepts every chunk and reports the matching hash. -/
def sampleEnv : UploadEnv :=
  { stat := .ok 5, openErr := none, content := [1, 2, 3, 4, 5], readErr := fun _ => none,
    newRequestErr := none, post := fun _ _ => .ok statusOK, uuid := "5f0c", base := fun s => s,
    urlErr := none, hashLocal := .ok "74f8",
    flow := fun _ => .response 200 (.ok { State := 2, ContentHash := "74f8" }) }

/-- A server that answers every chunk upload with status 500. -/
def rejectingEnv : UploadEnv :=
  { sampleEnv with post := fun _ _ => .ok statusServerError }

/-- A disk that fails on the read of the second chunk. -/
def brokenDiskEnv : UploadEnv :=
  { sampleEnv with readErr := fun i => if i = 1 then some "input/output error" else none }

/-- A flowfile resource that always reports the assembled state with one fixed hash. -/
def assembledWith (hash : String) : Nat → HttpReply FlowFile :=
  fun _ => .response 200 (.ok { State := 2, ContentHash := hash })

/-! ## Path classification: `analyse_paths` -/

/-- What an `os.FileInfo` tells `analyse_paths`. -/
structure FileInfo where
  IsDir : Bool
  Size : Nat
deriving DecidableEq, Repr

/-- One call of the callback of `filepath.Walk`: the path and its `FileInfo`. -/
structure WalkEntry where
  path : String
  info : FileInfo
deriving DecidableEq, Repr

/-- The file system as `analyse_paths` sees it. `walk root` lists the calls
`filepath.Walk(root, ...)` makes to its callback, in order, each with a
`FileInfo` (an entry that cannot be examined, for which Go passes a nil
`FileInfo`, is not modelled). -/
structure Fs where
  /-- `os.Stat`. -/
  stat : String → Except GoError FileInfo
  /-- The callbacks of `filepath.Walk`. -/
  walk : String → List WalkEntry
  /-- `filepath.Abs`. -/
  abs : String → Except GoError String
  /-- `filepath.Base`. -/
  base : String → String

/-- The test `strings.HasPrefix(s, p)`. -/
def strings_HasPrefix (s p : String) : Bool :=
  p.data.isPrefixOf s.data

/-- The call `strings.Replace(s, "\\", "/", -1)`: every backslash becomes a slash. -/
def replaceBackslashes (s : String) : String :=
  String.mk (s.data.map (fun c => if c = '\\' then '/' else c))

/-- The call `strings.TrimPrefix(s, "/")`. -/
def trimLeadingSlash (s : String) : String :=
  match s.data with
  | '/' :: rest => String.mk rest
  | _ => s

/-- The target path `analyse_paths` gives to `path`, found below the input
directory `file`: the part after `file` when `path` starts with it (the slice
`path[len(file):]`), with slashes for backslashes and no leading slash. -/
def relative_path (file path : String) : String :=
  let rel := if strings_HasPrefix path file then String.mk (path.data.drop file.data.length)
             else path
  trimLeadingSlash (replaceBackslashes rel)

/-- The three results of `analyse_paths`. -/
structure Analysis where
  files_to_upload : List UploadFile
  files_to_zip : List UploadFile
  files_only : Bool
deriving DecidableEq, Repr

/-- The callback `analyse_paths` passes to `filepath.Walk`, applied to one entry. -/
def walk_callback (chunkSize : Nat) (file : String) (acc : Analysis) (e : WalkEntry) :
    Analysis :=
  if !e.info.IsDir then
    let unit : UploadFile :=
      { SourcePath := replaceBackslashes e.path, TargetPath := relative_path file e.path,
        Delete := false, Imported := false }
    if e.info.Size < chunkSize then { acc with files_to_zip := acc.files_to_zip ++ [unit] }
    else { acc with files_to_upload := acc.files_to_upload ++ [unit] }
  else acc

/-- The body of the loop `for _, file := range paths` of `analyse_paths`. -/
def analyse_step (fs : Fs) (chunkSize : Nat) (acc : Analysis) (file : String) : Analysis :=
  match fs.stat file with
  | .error _ => acc
  | .ok fileInfo =>
    if fileInfo.IsDir then
      (fs.walk file).foldl (walk_callback chunkSize file) { acc with files_only := false }
    else
      let abs_path := match fs.abs file with
        | .ok p => p
        | .error _ => file
      { acc with files_to_upload := acc.files_to_upload ++
          [{ SourcePath := abs_path, TargetPath := fs.base file, Delete := false,
             Imported := false }] }

/-- The Go function `analyse_paths`; `chunkSize` is the value of `UPLOAD_CHUCK_SIZE`. -/
def analyse_paths (fs : Fs) (chunkSize : Nat) (paths : List String) : Analysis :=
  paths.foldl (analyse_step fs chunkSize)
    { files_to_upload := [], files_to_zip := [], files_only := true }

/-! ### What the classification is expected to deliver -/

/-- The unit made for a file found below the input directory `file`. -/
def walkedUnit (file : String) (e : WalkEntry) : UploadFile :=
  { SourcePath := replaceBackslashes e.path, TargetPath := relative_path file e.path,
    Delete := false, Imported := false }

/-- The unit made for an input path that is itself a file. -/
def topLevelUnit (fs : Fs) (file : String) : UploadFile :=
  { SourcePath := (match fs.abs file with
      | .ok p => p
      | .error _ => file),
    TargetPath := fs.base file, Delete := false, Imported := false }

/-- The units discovered by one input path: none for a missing path, the path
itself for a file, every entry below it that is not a directory for a directory. -/
def discovered (fs : Fs) (file : String) : List UploadFile :=
  match fs.stat file with
  | .error _ => []
  | .ok fileInfo =>
    if fileInfo.IsDir then
      ((fs.walk file).filter (fun e => !e.info.IsDir)).map (walkedUnit file)
    else [topLevelUnit fs file]

/-- The units one input path sends to the direct-upload list: the path itself
when it is a file, and the files of at least `chunkSize` bytes below a directory. -/
def directOf (fs : Fs) (chunkSize : Nat) (file : String) : List UploadFile :=
  match fs.stat file with
  | .error _ => []
  | .ok fileInfo =>
    if fileInfo.IsDir then
      ((fs.walk file).filter (fun e => !e.info.IsDir && decide (chunkSize ≤ e.info.Size))).map
        (walkedUnit file)
    else [topLevelUnit fs file]

/-- The units one input path sends to the zip-candidate list: the files of
fewer than `chunkSize` bytes below a directory. -/
def zipOf (fs : Fs) (chunkSize : Nat) (file : String) : List UploadFile :=
  match fs.stat file with
  | .error _ => []
  | .ok fileInfo =>
    if fileInfo.IsDir then
      ((fs.walk file).filter (fun e => !e.info.IsDir && decide (e.info.Size < chunkSize))).map
        (walkedUnit file)
    else []

/-! ## Zip bundling: `zip_and_upload` -/

/-- Everything `zip_and_upload` obtains from outside. -/
structure ZipEnv where
  /-- `os.Create(zip_path)` for the archive started at `index`. -/
  createErr : Nat → Option GoError
  /-- Failure of adding a file to the archive (`os.Open`, `w.Create` or `io.Copy`). -/
  addErr : UploadFile → Option GoError
  /-- `os.Stat(zip_path)` right after the given files were added to the open
  archive: the size of the file on disk, or an error. That size counts the
  bytes the zip writer has flushed so far; what it still buffers is not in it. -/
  zipStat : List UploadFile → Except GoError Nat
  /-- `filepath.Join`. -/
  join : String → String → String

/-- An archive handed to the upload channel: the unit and the files it holds. -/
structure Archive where
  unit : UploadFile
  content : List UploadFile
deriving DecidableEq, Repr

/-- State of the inner loop of `zip_and_upload` when it is left: the files
added to the archive (as many as `index` was advanced) and a fatal error. -/
structure FillResult where
  content : List UploadFile
  err : Option GoError
deriving DecidableEq, Repr

/-- The inner loop `for _, file_to_zip := range files_to_zip[index:]` of
`zip_and_upload`: `content` holds the files already added to the open archive. -/
def zip_fill (env : ZipEnv) (maxZipSize : Nat) : List UploadFile → List UploadFile → FillResult
  | [], content => { content := content, err := none }
  | file_to_zip :: rest, content =>
    match env.addErr file_to_zip with
    | some e => { content := content, err := some e }
    | none =>
      let content := content ++ [file_to_zip]
      match env.zipStat content with
      | .ok size =>
        if size > maxZipSize then { content := content, err := none }
        else zip_fill env maxZipSize rest content
      | .error _ => zip_fill env maxZipSize rest content

/-- A run of `zip_and_upload`: the archives sent to the channel, in order, and
how the run ended. -/
structure ZipRun where
  emitted : List Archive
  outcome : Outcome
deriving DecidableEq, Repr

/-- The name `fmt.Sprintf("upload_%d.agora_upload", index)`. -/
def zip_filename (index : Nat) : String :=
  "upload_" ++ toString index ++ ".agora_upload"

/-- The outer loop `for index < len(files_to_zip)` of `zip_and_upload`. The
first argument bounds the number of iterations; every iteration adds at least
one file, so `len(files_to_zip)` iterations are never used up. -/
def zip_loop (env : ZipEnv) (maxZipSize : Nat) (temp_dir : String)
    (files_to_zip : List UploadFile) : Nat → Nat → ZipRun
  | 0, _ => { emitted := [], outcome := .pending }
  | fuel + 1, index =>
    if index < files_to_zip.length then
      match env.createErr index with
      | some e =>
        { emitted := [],
          outcome := .fatal ("Could not create the zip file " ++
            env.join temp_dir (zip_filename index) ++ ": " ++ e) }
      | none =>
        let fill := zip_fill env maxZipSize (files_to_zip.drop index) []
        match fill.err with
        | some e => { emitted := [], outcome := .fatal e }
        | none =>
          let upload_file : UploadFile :=
            { SourcePath := env.join temp_dir (zip_filename index),
              TargetPath := zip_filename index, Delete := true, Imported := false }
          let rest := zip_loop env maxZipSize temp_dir files_to_zip fuel
            (index + fill.content.length)
          { rest with emitted := { unit := upload_file, content := fill.content } :: rest.emitted }
    else { emitted := [], outcome := .returned none }

/-- The Go function `zip_and_upload`; `maxZipSize` is the value of `MAX_ZIP_SIZE`. -/
def zip_and_upload (env : ZipEnv) (maxZipSize : Nat) (temp_dir : String)
    (files_to_zip : List UploadFile) : ZipRun :=
  zip_loop env maxZipSize temp_dir files_to_zip (files_to_zip.length + 1) 0

/-- The archive was closed because `os.Stat` reported a size above the maximum
right after the last of its files was added. -/
def closedByOverflow (env : ZipEnv) (maxZipSize : Nat) (a : Archive) : Prop :=
  ∃ s, env.zipStat a.content = .ok s ∧ maxZipSize < s

/-- A sample bundler environment: no failures, every file adds ten bytes. -/
def sampleZipEnv : ZipEnv :=
  { createErr := fun _ => none, addErr := fun _ => none,
    zipStat := fun l => .ok (10 * l.length), join := fun a b => a ++ "/" ++ b }

/-- A small file below a directory, as `analyse_paths` records it. -/
def smallUnit (name : String) : UploadFile :=
  { SourcePath := "/data/" ++ name, TargetPath := name, Delete := false, Imported := false }

/-- A sample file system: the directory `/data` with a small and a large file,
and the single file `/x/f.bin`. -/
def sampleFs : Fs :=
  { stat := fun p =>
      if p = "/data" then .ok { IsDir := true, Size := 0 }
      else (if p = "/x/f.bin" then .ok { IsDir := false, Size := 7 } else .error "no such file"),
    walk := fun _ =>
      [ { path := "/data", info := { IsDir := true, Size := 0 } },
        { path := "/data/a", info := { IsDir := false, Size := 3 } },
        { path := "/data\\s\\b", info := { IsDir := false, Size := 300 } } ],
    abs := fun p => .ok p,
    base := fun _ => "f.bin" }

/-- A lower bound of the size of a ZIP archive that holds the given files, from
the fixed-size records of the format: per entry a local file header (30 bytes)
and a central directory header (46 bytes), each followed by the entry name, and
one end-of-central-directory record (22 bytes). The file data comes on top. -/
def zipMinSize (content : List UploadFile) : Nat :=
  22 + (content.map (fun f => 30 + 46 + 2 * f.TargetPath.length)).sum

/-- A bundler environment for small archives: `zip.Writer` writes through a
buffer of 4096 bytes that is flushed when the archive is closed, so while less
than that was written `os.Stat` reports a file of 0 bytes. -/
def lazyStatZipEnv : ZipEnv :=
  { createErr := fun _ => none, addErr := fun _ => none,
    zipStat := fun _ => .ok 0, join := fun a b => a ++ "/" ++ b }

/-- Seven small files. -/
def sevenFiles : List UploadFile :=
  [smallUnit "a", smallUnit "b", smallUnit "c", smallUnit "d", smallUnit "e", smallUnit "f",
   smallUnit "g"]

/-! ## Reconciliation: `update_import_state` -/

/-- The Go map `uniqueDataFiles`, as a list of key-value pairs with distinct
keys: the assignment `m[k] = v` replaces the value of an existing key and adds a
new pair otherwise. -/
def map_set (m : List (Int × DataFile)) (k : Int) (v : DataFile) : List (Int × DataFile) :=
  match m with
  | [] => [(k, v)]
  | (k', v') :: rest => if k' = k then (k, v) :: rest else (k', v') :: map_set rest k v

/-- The loop `for _, datafile := range datafiles { uniqueDataFiles[datafile.ID] = datafile }`. -/
def unique_datafiles (datafiles : List DataFile) : List (Int × DataFile) :=
  datafiles.foldl (fun m datafile => map_set m datafile.ID datafile) []

/-- The deduplication step of `update_import_state`: the map is filled and then
read back into a list. `order` is the order in which `range` visits the pairs
of the map (Go leaves it unspecified; it visits every pair once). -/
def dedup_datafiles (order : List (Int × DataFile) → List (Int × DataFile))
    (datafiles : List DataFile) : List DataFile :=
  (order (unique_datafiles datafiles)).map Prod.snd

/-- Everything `update_import_state` obtains from outside. -/
structure ImportEnv where
  /-- The reply to the request for the import result. -/
  result : HttpReply (List ImportResult)
  /-- `sha1Hash` of a source path. -/
  sha1 : String → Except GoError String
  /-- `filepath.Base`. -/
  base : String → String
  /-- The order in which `range` visits the map `uniqueDataFiles`. -/
  mapOrder : List (Int × DataFile) → List (Int × DataFile)

/-- One line logged by the reconciliation, with the loop variable `file` as it
is when the line is logged. -/
structure CheckLine where
  status : String
  file : UploadFile
deriving DecidableEq, Repr

/-- The inner loop `for _, file := range files` of `update_import_state` for one
datafile. The loop variable `file` is a copy of the slice element, so the
assignment `file.Imported = true` changes the copy only; the loop ends at the
first unit with the base name of the datafile that is not marked imported. -/
def check_datafile (env : ImportEnv) (datafile : DataFile) : List UploadFile → Option CheckLine
  | [] => none
  | file :: rest =>
    if env.base file.TargetPath = env.base datafile.Name ∧ file.Imported = false then
      let localSha1 := match env.sha1 file.SourcePath with
        | .ok h => h
        | .error _ => ""
      let status := match env.sha1 file.SourcePath with
        | .ok _ => "FAILED:  "
        | .error _ => "UNKNOWN:"
      if localSha1 = datafile.Sha1 then
        some { status := "IMPORTED:", file := { file with Imported := true } }
      else some { status := status, file := file }
    else check_datafile env datafile rest

/-- A run of `update_import_state`: its two results, the slice `files` of the
caller after the call, and the lines logged. -/
structure ImportCheck where
  success : Bool
  err : Option GoError
  files : List UploadFile
  log : List CheckLine
deriving DecidableEq, Repr

/-- The Go function `update_import_state`. -/
def update_import_state (env : ImportEnv) (files : List UploadFile) : ImportCheck :=
  match env.result with
  | .transport e => { success := false, err := some e, files := files, log := [] }
  | .response status body =>
    if status ≠ 200 then
      { success := false,
        err := some ("could not get the import result. http status = " ++ toString status),
        files := files, log := [] }
    else
      match body with
      | .error e => { success := false, err := some e, files := files, log := [] }
      | .ok data =>
        let firstEmpty := match data with
          | [] => false
          | first :: _ => decide (first.DataFiles.length = 0)
        if firstEmpty then { success := true, err := none, files := files, log := [] }
        else
          let datafiles := data.flatMap ImportResult.DataFiles
          let datafiles := dedup_datafiles env.mapOrder datafiles
          { success := true, err := none, files := files,
            log := datafiles.filterMap (fun datafile => check_datafile env datafile files) }

/-- A sample reconciliation: the server reports `a.dat` with the hash of the
local file. -/
def sampleImportEnv : ImportEnv :=
  { result := .response 200 (.ok [{ DataFiles := [{ ID := 1, Name := "a.dat", Sha1 := "da39" }] }]),
    sha1 := fun _ => .ok "da39",
    base := fun s => s,
    mapOrder := fun m => m }

/-- The local unit `a.dat`, not marked imported. -/
def sampleUnit : UploadFile :=
  { SourcePath := "/data/a.dat", TargetPath := "a.dat", Delete := false, Imported := false }

/-! ## The progress loop of `upload` -/

/-- The reply to a progress query: a transport error, or a response with its
status and the value the body was decoded into. -/
inductive ProgressReply where
  | transport (e : GoError)
  | response (status : Nat) (decoded : UploadProgress)
deriving DecidableEq, Repr

/-- The Go function `progress`, applied to the reply of its request. -/
def progress (reply : ProgressReply) : UploadProgress × Option GoError :=
  match reply with
  | .transport e => (UploadProgress.zero, some e)
  | .response status decoded =>
    if status ≠ 200 then
      (UploadProgress.zero,
       some ("could not get the upload progress. http status = " ++ toString status))
    else (decoded, none)

/-- Everything the tail of `upload` obtains from outside. -/
structure WaitEnv where
  /-- The result of `complete`. -/
  completeErr : Option GoError
  /-- The reply to the `k`-th progress query. -/
  progressReply : Nat → ProgressReply
  /-- Whether `time.Since(start_time).Seconds() < float64(timeout)` holds when the
  loop condition is evaluated for the `k`-th time. -/
  inTime : Nat → Bool
  /-- The environment of `update_import_state`. -/
  importEnv : ImportEnv

/-- The result of `upload`, with the number of progress queries issued. -/
structure WaitResult where
  data : UploadProgress
  err : Option GoError
  polls : Nat
deriving DecidableEq, Repr

/-- The loop `for timeout < 0 || time.Since(start_time).Seconds() < float64(timeout)`
of `upload`; `k` counts the progress queries issued so far, and `none` stands
for a loop that is still polling when the fuel is used up. -/
def progress_loop (env : WaitEnv) (allFiles : List UploadFile) (verify : Bool) (timeout : Int) :
    Nat → Nat → Option WaitResult
  | 0, _ => none
  | fuel + 1, k =>
    if timeout < 0 ∨ env.inTime k = true then
      match progress (env.progressReply k) with
      | (_, some e) => some { data := UploadProgress.zero, err := some e, polls := k + 1 }
      | (data, none) =>
        if data.State = 5 ∨ data.State = 4 then
          if verify then
            if data.State = 5 ∧ data.Progress = 100 then
              match (update_import_state env.importEnv allFiles).err with
              | some e => some { data := UploadProgress.zero, err := some e, polls := k + 1 }
              | none =>
                if (update_import_state env.importEnv allFiles).success then
                  some { data := data, err := none, polls := k + 1 }
                else some { data := data, err := none, polls := k + 1 }
            else progress_loop env allFiles verify timeout fuel (k + 1)
          else some { data := data, err := none, polls := k + 1 }
        else if data.State = -1 then
          some { data := data, err := some "the import failed", polls := k + 1 }
        else progress_loop env allFiles verify timeout fuel (k + 1)
    else some { data := UploadProgress.zero, err := some "upload progress timeout", polls := k }

/-- The part of `upload` after the workers have finished: `complete`, and the
progress loop when waiting is requested (`wait = wait || verify`). -/
def upload_wait (env : WaitEnv) (allFiles : List UploadFile) (wait verify : Bool)
    (timeout : Int) (fuel : Nat) : Option WaitResult :=
  let wait := wait || verify
  match env.completeErr with
  | none =>
    if wait then progress_loop env allFiles verify timeout fuel 0
    else some { data := UploadProgress.zero, err := none, polls := 0 }
  | some e => some { data := UploadProgress.zero, err := some e, polls := 0 }

/-- A progress reply with status 200 and the given state and progress. -/
def progressOf (state progress : Int) : ProgressReply :=
  .response 200 { State := state, Progress := progress,
                  Tasks := { Count := 0, Finished := 0, Error := 0, Ids := [] } }

/-- The replies of scenario C: the states 0, 1, 4 and then 4 for ever. -/
def scenarioC : Nat → ProgressReply :=
  fun k => if k = 0 then progressOf 0 0 else (if k = 1 then progressOf 1 40 else progressOf 4 80)

/-- An import that is uploaded (state 4), then imported at 60 percent, then complete. -/
def slowImport : Nat → ProgressReply :=
  fun k => if k = 0 then progressOf 4 30 else (if k = 1 then progressOf 5 60 else progressOf 5 100)

/-- A sample environment of the tail of `upload`. -/
def sampleWaitEnv (replies : Nat → ProgressReply) : WaitEnv :=
  { completeErr := none, progressReply := replies, inTime := fun _ => true,
    importEnv := sampleImportEnv }

/-- A progress reply after which the loop of `upload` sleeps and polls again:
status 200 and a state that is neither the hard failure nor, for the mode, a
state the loop returns on (4 or 5 without verify; 5 at 100 percent with verify). -/
def keepsPolling (verify : Bool) (reply : ProgressReply) : Prop :=
  ∃ d, reply = .response 200 d ∧ d.State ≠ -1 ∧
    (if verify then ¬ (d.State = 5 ∧ d.Progress = 100) else d.State ≠ 4 ∧ d.State ≠ 5)

/-! ## The worker: `upload_worker` -/

/-- A run of `upload_worker`: the calls of `upload_file` it made, in order, and
how it ended (`returned` once the channel is closed and drained, `fatal` when a
call terminated the process, `pending` when a call never came back). -/
structure WorkerRun where
  runs : List UploadRun
  outcome : Outcome
deriving DecidableEq, Repr

/-- The Go function `upload_worker`, given the units it receives from the
channel, in order, each with the environment its `upload_file` call meets. The
result of `upload_file` is dropped; the next unit is taken when the call returns. -/
def upload_worker (chunkSize : Nat) (fake : Bool) (fuel : Nat) :
    List (UploadFile × UploadEnv) → WorkerRun
  | [] => { runs := [], outcome := .returned none }
  | (file, env) :: rest =>
    let run := upload_file env chunkSize file fake fuel
    match run.outcome with
    | .returned _ =>
      let later := upload_worker chunkSize fake fuel rest
      { later with runs := run :: later.runs }
    | .fatal msg => { runs := [run], outcome := .fatal msg }
    | .pending => { runs := [run], outcome := .pending }

/-- A source file that cannot be stat'ed. -/
def missingSourceEnv : UploadEnv :=
  { sampleEnv with stat := .error "no such file or directory" }

/-- A server that reports the assembled state with a wrong hash. -/
def wrongHashEnv : UploadEnv :=
  { sampleEnv with flow := assembledWith "0000" }

/-! ## Completing the import: `complete` -/

/-- The assignment `data[k] = v` on a Go `map[string]string`, kept as a list of
pairs with distinct keys. -/
def smap_set (m : List (String × String)) (k v : String) : List (String × String) :=
  match m with
  | [] => [(k, v)]
  | (k', v') :: rest => if k' = k then (k, v) :: rest else (k', v') :: smap_set rest k v

/-- The rendering `fmt.Sprintf("%d", n)` of an integer. -/
def fmt_d (n : Int) : String :=
  toString n

/-- The map `data` built by `complete`. -/
def complete_data (target_folder_id exam_id series_id task_definition_id : Int)
    (json_import_file : String) (extract_zip_file : Bool) : List (String × String) :=
  let data : List (String × String) := []
  let data := if json_import_file ≠ "" then smap_set data "import_file" json_import_file
              else data
  let data := if target_folder_id > 0 then smap_set data "folder" (fmt_d target_folder_id)
              else data
  let data := if exam_id > 0 then smap_set data "exam" (fmt_d exam_id) else data
  let data := if series_id > 0 then smap_set data "series" (fmt_d series_id) else data
  let data := if task_definition_id > 0
              then smap_set data "task_definition" (fmt_d task_definition_id) else data
  let data := if extract_zip_file then smap_set data "extract_zip_files" "true" else data
  data

/-- What a call of `complete` does: the JSON object it sends (as its key-value
pairs; `none` when no request is built) and the error it returns. -/
structure CompleteCall where
  body : Option (List (String × String))
  err : Option GoError
deriving DecidableEq, Repr

/-- The Go function `complete`. `newRequestErr` is the outcome of
`http.NewRequest`, `reply` that of `client.Do` (a transport error or the HTTP
status). `json.Marshal` of a `map[string]string` does not fail. -/
def complete (newRequestErr : Option GoError) (reply : Except GoError Nat)
    (target_folder_id exam_id series_id task_definition_id : Int)
    (json_import_file : String) (extract_zip_file : Bool) : CompleteCall :=
  let data := complete_data target_folder_id exam_id series_id task_definition_id
    json_import_file extract_zip_file
  match newRequestErr with
  | some e => { body := none, err := some e }
  | none =>
    match reply with
    | .error e => { body := some data, err := some e }
    | .ok status =>
      if status ≠ 204 then
        { body := some data,
          err := some ("the \"complete\" request was invalid. http status = " ++ toString status ++
            ". make sure the target folder does exist") }
      else { body := some data, err := none }

/-- The keys `complete` can put into the body. -/
def completeKeys : List String :=
  ["import_file", "folder", "exam", "series", "task_definition", "extract_zip_files"]

/-! ### Further sample inputs -/

/-- The form submitted by an attempt that finds all readers of `values` read to
their end: an empty payload and empty field values. -/
def drainedForm (filename : String) : List FormPart :=
  [ .file "file" filename [],
    .field "description" "",
    .field "flowChunkNumber" "",
    .field "flowChunkSize" "",
    .field "flowCurrentChunkSize" "",
    .field "flowTotalSize" "",
    .field "flowIdentifier" "",
    .field "flowFilename" "",
    .field "flowRelativePath" "",
    .field "flowTotalChunks" "" ]

/-- Ten MiB. -/
def tenMiB : Nat := 10 * 1024 * 1024

/-- Scenario A: the directory `/scan` with five files of 10 MiB each. -/
def scenarioAFs : Fs :=
  { stat := fun p => if p = "/scan" then .ok { IsDir := true, Size := 0 } else .error "no such file",
    walk := fun _ =>
      [ { path := "/scan", info := { IsDir := true, Size := 0 } },
        { path := "/scan/1.dcm", info := { IsDir := false, Size := tenMiB } },
        { path := "/scan/2.dcm", info := { IsDir := false, Size := tenMiB } },
        { path := "/scan/3.dcm", info := { IsDir := false, Size := tenMiB } },
        { path := "/scan/4.dcm", info := { IsDir := false, Size := tenMiB } },
        { path := "/scan/5.dcm", info := { IsDir := false, Size := tenMiB } } ],
    abs := fun p => .ok p,
    base := fun p => p }

/-- Scenario A: an archive grows by 10 MiB with every file (no compression). -/
def scenarioAZipEnv : ZipEnv :=
  { createErr := fun _ => none, addErr := fun _ => none,
    zipStat := fun l => .ok (tenMiB * l.length), join := fun a b => a ++ "/" ++ b }

/-- A progress resource that reports state 0 and then the hard failure. -/
def failingImport : Nat → ProgressReply :=
  fun k => if k = 0 then progressOf 0 0 else progressOf (-1) 10

/-- A caller budget that is used up when the loop condition is evaluated for
the fourth time. -/
def budgetEnv (replies : Nat → ProgressReply) : WaitEnv :=
  { completeErr := none, progressReply := replies, inTime := fun k => decide (k < 3),
    importEnv := sampleImportEnv }

theorem upShift_ge (n d : Nat) : ∀ fuel a0, a0 ≤ upShift n d fuel a0 := by
  intro fuel
  induction fuel with
  | zero => intro a0; simp [upShift]
  | succ f ih =>
    intro a0
    unfold upShift
    split
    · exact le_rfl
    · exact le_trans (Nat.le_succ a0) (ih (a0 + 1))

theorem upShift_min (n d : Nat) : ∀ fuel a0, a0 < upShift n d fuel a0 →
    n * 2 ^ (upShift n d fuel a0 - 1) < 2 ^ 52 * d := by
  intro fuel
  induction fuel with
  | zero => intro a0 h; simp [upShift] at h
  | succ f ih =>
    intro a0 h
    rw [upShift] at h ⊢
    split
    · rename_i hc; rw [if_pos hc] at h; exact absurd h (lt_irrefl _)
    · rename_i hc
      rw [if_neg hc] at h
      by_cases h1 : a0 + 1 < upShift n d f (a0 + 1)
      · exact ih (a0 + 1) h1
      · have h2 : upShift n d f (a0 + 1) = a0 + 1 :=
          le_antisymm (not_lt.mp h1) (upShift_ge n d f (a0 + 1))
        rw [h2]
        simpa using not_le.mp hc

theorem upShift_hit (n d : Nat) : ∀ fuel a0 k, k < fuel → 2 ^ 52 * d ≤ n * 2 ^ (a0 + k) →
    2 ^ 52 * d ≤ n * 2 ^ (upShift n d fuel a0) := by
  intro fuel
  induction fuel with
  | zero => intro a0 k hk; omega
  | succ f ih =>
    intro a0 k hk h
    unfold upShift
    split
    · assumption
    · rename_i hc
      cases k with
      | zero => exact absurd (by simpa using h) hc
      | succ k =>
        apply ih (a0 + 1) k (by omega)
        have : a0 + 1 + k = a0 + (k + 1) := by omega
        rw [this]; exact h

theorem downShift_ge (n d : Nat) : ∀ fuel b0, b0 ≤ downShift n d fuel b0 := by
  intro fuel
  induction fuel with
  | zero => intro b0; simp [downShift]
  | succ f ih =>
    intro b0
    unfold downShift
    split
    · exact le_rfl
    · exact le_trans (Nat.le_succ b0) (ih (b0 + 1))

theorem downShift_min (n d : Nat) : ∀ fuel b0, b0 < downShift n d fuel b0 →
    2 ^ 53 * d * 2 ^ (downShift n d fuel b0 - 1) ≤ n := by
  intro fuel
  induction fuel with
  | zero => intro b0 h; simp [downShift] at h
  | succ f ih =>
    intro b0 h
    rw [downShift] at h ⊢
    split
    · rename_i hc; rw [if_pos hc] at h; exact absurd h (lt_irrefl _)
    · rename_i hc
      rw [if_neg hc] at h
      by_cases h1 : b0 + 1 < downShift n d f (b0 + 1)
      · exact ih (b0 + 1) h1
      · have h2 : downShift n d f (b0 + 1) = b0 + 1 :=
          le_antisymm (not_lt.mp h1) (downShift_ge n d f (b0 + 1))
        rw [h2]
        simpa using not_lt.mp hc

theorem downShift_hit (n d : Nat) : ∀ fuel b0 k, k < fuel → n < 2 ^ 53 * d * 2 ^ (b0 + k) →
    n < 2 ^ 53 * d * 2 ^ (downShift n d fuel b0) := by
  intro fuel
  induction fuel with
  | zero => intro b0 k hk; omega
  | succ f ih =>
    intro b0 k hk h
    unfold downShift
    split
    · assumption
    · rename_i hc
      cases k with
      | zero => exact absurd (by simpa using h) hc
      | succ k =>
        apply ih (b0 + 1) k (by omega)
        have : b0 + 1 + k = b0 + (k + 1) := by omega
        rw [this]; exact h

/-- Rounding to 53 bits does not change the ceiling of `n / d` as long as `n < 2^53`. -/
theorem ceil_core (n d A : Nat) (hd : 0 < d) (hA : 0 < A) (hn : n < 2 ^ 53)
    (hlow : 2 ^ 52 * d ≤ n * A) :
    ((if d < 2 * (n * A % d) ∨ (2 * (n * A % d) = d ∧ (n * A / d) % 2 = 1)
        then n * A / d + 1 else n * A / d) + A - 1) / A = (n + d - 1) / d := by
  set m0 := n * A / d with hm0
  set r := n * A % d with hr
  have hdiv : d * m0 + r = n * A := Nat.div_add_mod (n * A) d
  have hrlt : r < d := Nat.mod_lt _ hd
  have hk : d * (n / d) + n % d = n := Nat.div_add_mod n d
  have hr0lt : n % d < d := Nat.mod_lt _ hd
  set k := n / d with hkdef
  set r0 := n % d with hr0def
  have hm0ge : 2 ^ 52 ≤ m0 := by
    rw [hm0, Nat.le_div_iff_mul_le hd]; exact hlow
  -- n * A = d * k * A + r0 * A
  have hnA : n * A = d * (k * A) + r0 * A := by
    rw [← hk]; ring
  have hm0lo : k * A ≤ m0 := by
    rw [hm0, Nat.le_div_iff_mul_le hd]
    rw [hnA]; nlinarith
  by_cases hr0 : r0 = 0
  · -- exact division
    have hnA2 : n * A = d * (k * A) := by rw [hnA, hr0]; simp
    have hm0eq : m0 = k * A := by
      rw [hm0, hnA2, Nat.mul_div_cancel_left _ hd]
    have hreq : r = 0 := by
      rw [hr, hnA2]; exact Nat.mul_mod_right d (k * A)
    have hK : (n + d - 1) / d = k := by
      have : n + d - 1 = d - 1 + d * k := by rw [← hk, hr0]; omega
      rw [this, Nat.add_mul_div_left _ _ hd, Nat.div_eq_of_lt (by omega)]; simp
    rw [hK, hreq, hm0eq]
    have hif : ¬ (d < 2 * 0 ∨ (2 * 0 = d ∧ (k * A) % 2 = 1)) := by
      rintro (h | ⟨h, _⟩) <;> omega
    rw [if_neg hif]
    have : k * A + A - 1 = A - 1 + A * k := by
      rw [Nat.mul_comm]; omega
    rw [this, Nat.add_mul_div_left _ _ hA, Nat.div_eq_of_lt (by omega)]; simp
  · have hr0pos : 0 < r0 := Nat.pos_of_ne_zero hr0
    have hK : (n + d - 1) / d = k + 1 := by
      have : n + d - 1 = (r0 - 1) + d * (k + 1) := by rw [← hk]; ring_nf; omega
      rw [this, Nat.add_mul_div_left _ _ hd, Nat.div_eq_of_lt (by omega)]; simp
    rw [hK]
    have hm0hi : m0 < (k + 1) * A := by
      rw [hm0, Nat.div_lt_iff_lt_mul hd, hnA]
      nlinarith
    -- the rounded mantissa
    set m := (if d < 2 * r ∨ (2 * r = d ∧ m0 % 2 = 1) then m0 + 1 else m0) with hm
    have hmhi : m ≤ (k + 1) * A := by
      rw [hm]; split <;> omega
    have hmlo : k * A < m := by
      by_cases hlt : k * A < m0
      · rw [hm]; split <;> omega
      · have hm0eq : m0 = k * A := le_antisymm (not_lt.mp hlt) hm0lo
        by_cases hc : d < 2 * r ∨ (2 * r = d ∧ m0 % 2 = 1)
        · rw [hm, if_pos hc]; omega
        · exfalso
          have h2r : 2 * r ≤ d := by
            by_contra h; exact hc (Or.inl (not_le.mp h))
          have hreq : r = r0 * A := by
            have : d * m0 + r = d * (k * A) + r0 * A := by rw [hdiv, hnA]
            rw [hm0eq] at this; omega
          have hApos : A ≤ r0 * A := Nat.le_mul_of_pos_left A hr0pos
          have h2A : 2 * A ≤ d := by omega
          have hkA : 2 ^ 52 ≤ k * A := hm0eq ▸ hm0ge
          have : 2 ^ 53 ≤ n := by
            calc 2 ^ 53 = 2 * 2 ^ 52 := by norm_num
              _ ≤ 2 * (k * A) := by omega
              _ = (2 * A) * k := by ring
              _ ≤ d * k := Nat.mul_le_mul_right k h2A
              _ ≤ n := by omega
          omega
    apply Nat.div_eq_of_lt_le
    · have : (k + 1) * A = k * A + A := by ring
      omega
    · have : (k + 1 + 1) * A = k * A + A + A := by ring
      have : (k + 1) * A = k * A + A := by ring
      omega

theorem downShift_zero (n d fuel : Nat) (hf : 0 < fuel) (h : n < 2 ^ 53 * d) :
    downShift n d fuel 0 = 0 := by
  cases fuel with
  | zero => omega
  | succ f => rw [downShift, if_pos (by simpa using h)]

theorem upShift_zero (n d fuel : Nat) (h : 2 ^ 52 * d ≤ n) :
    upShift n d fuel 0 = 0 := by
  cases fuel with
  | zero => rfl
  | succ f => rw [upShift, if_pos (by simpa using h)]

/-- The scaled ratio found by `upShift` has its integer part below `2^53`. -/
theorem upShift_lt (n d : Nat) (hn : n < 2 ^ 53) (hd : 0 < d) :
    n * 2 ^ (upShift n d 1100 0) < 2 ^ 53 * d := by
  by_cases h0 : 0 < upShift n d 1100 0
  · have := upShift_min n d 1100 0 h0
    obtain ⟨a, ha⟩ : ∃ a, upShift n d 1100 0 = a + 1 := ⟨_, (Nat.succ_pred_eq_of_pos h0).symm⟩
    rw [ha] at this ⊢
    simp only [Nat.add_sub_cancel] at this
    rw [pow_succ]
    calc n * (2 ^ a * 2) = 2 * (n * 2 ^ a) := by ring
      _ < 2 * (2 ^ 52 * d) := by omega
      _ = 2 ^ 53 * d := by ring
  · have : upShift n d 1100 0 = 0 := by omega
    rw [this]
    calc n * 2 ^ 0 = n := by simp
      _ < 2 ^ 53 := hn
      _ ≤ 2 ^ 53 * d := Nat.le_mul_of_pos_right _ hd

/-- For a numerator below `2^53` the rounded quotient has the exact ceiling. -/
theorem ceil_roundF64 (n d : Nat) (hn0 : 0 < n) (hn : n < 2 ^ 53) (hd : 0 < d)
    (hd64 : d ≤ 2 ^ 64) : math_Ceil (roundF64 n d) = (n + d - 1) / d := by
  have hhit : 2 ^ 52 * d ≤ n * 2 ^ (upShift n d 1100 0) := by
    apply upShift_hit n d 1100 0 116 (by norm_num)
    calc 2 ^ 52 * d ≤ 2 ^ 52 * 2 ^ 64 := Nat.mul_le_mul_left _ hd64
      _ = 1 * 2 ^ (0 + 116) := by norm_num
      _ ≤ n * 2 ^ (0 + 116) := Nat.mul_le_mul_right _ hn0
  have hlt := upShift_lt n d hn hd
  have hb : downShift (n * 2 ^ (upShift n d 1100 0)) d 1100 0 = 0 :=
    downShift_zero _ _ _ (by norm_num) hlt
  simp only [roundF64, math_Ceil, hb, pow_zero, Nat.mul_one]
  exact ceil_core n d (2 ^ (upShift n d 1100 0)) hd (by positivity) hn hhit

/-- Integers below `2^53` are float64 numbers: the conversion is exact. -/
theorem float64_exact (x : Nat) (hx : x < 2 ^ 53) : float64 x = x := by
  unfold float64
  split
  · rename_i h; exact h.symm
  · rename_i h
    have hx0 : 0 < x := Nat.pos_of_ne_zero h
    have hlt := upShift_lt x 1 hx (by norm_num)
    have hb : downShift (x * 2 ^ (upShift x 1 1100 0)) 1 1100 0 = 0 :=
      downShift_zero _ _ _ (by norm_num) hlt
    simp only [roundF64, hb, pow_zero, Nat.mul_one, Nat.div_one, Nat.mod_one]
    have hif : ¬ (1 < 2 * 0 ∨ (2 * 0 = 1 ∧ (x * 2 ^ (upShift x 1 1100 0)) % 2 = 1)) := by
      rintro (h | ⟨h, _⟩) <;> omega
    rw [if_neg hif]
    exact Nat.mul_div_cancel _ (by positivity)

/-- An int64 value of at least `2^53` converts to a float64 of at least `2^53`. -/
theorem float64_big (x : Nat) (h1 : 2 ^ 53 ≤ x) (h2 : x < 2 ^ 63) :
    2 ^ 53 ≤ float64 x ∧ float64 x ≤ 2 ^ 64 := by
  have hx0 : x ≠ 0 := by
    have : 0 < 2 ^ 53 := by positivity
    omega
  have ha : upShift x 1 1100 0 = 0 := upShift_zero x 1 1100 (by omega)
  have hhit : x < 2 ^ 53 * 1 * 2 ^ (downShift x 1 1100 0) := by
    apply downShift_hit x 1 1100 0 10 (by norm_num)
    calc x < 2 ^ 63 := h2
      _ = 2 ^ 53 * 1 * 2 ^ (0 + 10) := by norm_num
  have hbpos : 0 < downShift x 1 1100 0 := by
    by_contra h
    have h0 : downShift x 1 1100 0 = 0 := by omega
    rw [h0] at hhit
    simp at hhit
    omega
  have hmin := downShift_min x 1 1100 0 hbpos
  obtain ⟨b, hb⟩ : ∃ b, downShift x 1 1100 0 = b + 1 :=
    ⟨_, (Nat.succ_pred_eq_of_pos hbpos).symm⟩
  rw [hb] at hhit hmin
  simp only [Nat.add_sub_cancel, Nat.mul_one] at hmin hhit
  have hb10 : b < 10 := by
    by_contra h
    have : 2 ^ 10 ≤ 2 ^ b := Nat.pow_le_pow_right (by norm_num) (not_lt.mp h)
    have : 2 ^ 53 * 2 ^ 10 ≤ 2 ^ 53 * 2 ^ b := Nat.mul_le_mul_left _ this
    have e : (2 : Nat) ^ 53 * 2 ^ 10 = 2 ^ 63 := by norm_num
    omega
  have hpos : 0 < 2 ^ (b + 1) := by positivity
  have hm0lo : 2 ^ 52 ≤ x / 2 ^ (b + 1) := by
    rw [Nat.le_div_iff_mul_le hpos]
    calc 2 ^ 52 * 2 ^ (b + 1) = 2 ^ 53 * 2 ^ b := by rw [pow_succ]; ring
      _ ≤ x := hmin
  have hm0hi : x / 2 ^ (b + 1) < 2 ^ 53 := by
    rw [Nat.div_lt_iff_lt_mul hpos]; exact hhit
  have hpow : 2 ^ (b + 1) ≤ 2 ^ 10 := Nat.pow_le_pow_right (by norm_num) (by omega)
  have hpow2 : 2 ^ 1 ≤ 2 ^ (b + 1) := Nat.pow_le_pow_right (by norm_num) (by omega)
  unfold float64
  rw [if_neg hx0]
  simp only [roundF64, ha, hb, pow_zero, Nat.mul_one, Nat.one_mul, Nat.div_one]
  split
  · constructor
    · calc 2 ^ 53 = 2 ^ 52 * 2 ^ 1 := by norm_num
        _ ≤ (x / 2 ^ (b + 1) + 1) * 2 ^ (b + 1) :=
          Nat.mul_le_mul (by omega) hpow2
    · calc (x / 2 ^ (b + 1) + 1) * 2 ^ (b + 1) ≤ 2 ^ 53 * 2 ^ 10 :=
          Nat.mul_le_mul (by omega) hpow
        _ ≤ 2 ^ 64 := by norm_num
  · constructor
    · calc 2 ^ 53 = 2 ^ 52 * 2 ^ 1 := by norm_num
        _ ≤ (x / 2 ^ (b + 1)) * 2 ^ (b + 1) :=
          Nat.mul_le_mul hm0lo hpow2
    · calc (x / 2 ^ (b + 1)) * 2 ^ (b + 1) ≤ 2 ^ 53 * 2 ^ 10 :=
          Nat.mul_le_mul (by omega) hpow
        _ ≤ 2 ^ 64 := by norm_num

/-- Below `2^53` bytes the float64 computation of the chunk count is exact. -/
theorem nof_chunks_eq (S C : Nat) (hS : S < 2 ^ 53) (hC : 0 < C) (hC63 : C < 2 ^ 63) :
    nof_chunks S C = (S + C - 1) / C := by
  have hfit : (S + C - 1) / C < 2 ^ 63 := by
    rw [Nat.div_lt_iff_lt_mul hC]
    have h1 : (2 : Nat) ^ 63 = 9223372036854775808 := by norm_num
    have h2 : (2 : Nat) ^ 53 = 9007199254740992 := by norm_num
    rw [h1]
    rw [h2] at hS
    omega
  have hint : ∀ v, v = (S + C - 1) / C → int_of_float v = (S + C - 1) / C := by
    intro v hv
    rw [int_of_float, hv, if_pos hfit]
  unfold nof_chunks
  apply hint
  rw [float64_exact S hS]
  by_cases hS0 : S = 0
  · subst hS0
    simp only [f64div, true_or, if_true, math_Ceil]
    rw [Nat.div_one, Nat.zero_add]
    simp
    exact (Nat.div_eq_of_lt (by omega)).symm
  · have hSpos : 0 < S := Nat.pos_of_ne_zero hS0
    by_cases hC53 : C < 2 ^ 53
    · rw [float64_exact C hC53]
      have : ¬ (S = 0 ∨ C = 0) := by omega
      simp only [f64div, this, if_false]
      exact ceil_roundF64 S C hSpos hS hC (by omega)
    · obtain ⟨hlo, hhi⟩ := float64_big C (not_lt.mp hC53) hC63
      have hne : ¬ (S = 0 ∨ float64 C = 0) := by
        have : 0 < 2 ^ 53 := by positivity
        omega
      simp only [f64div, hne, if_false]
      rw [ceil_roundF64 S (float64 C) hSpos hS (by omega) hhi]
      have e1 : (S + float64 C - 1) / float64 C = 1 := by
        apply Nat.div_eq_of_lt_le <;> omega
      have e2 : (S + C - 1) / C = 1 := by
        apply Nat.div_eq_of_lt_le <;> omega
      rw [e1, e2]
/-! ## Facts about `upload_chunk` and the retry loop -/

theorem upload_chunk_err (nre : Option GoError) (reply : Except GoError HttpStatus)
    (values : List (String × Reader)) (fn : String) (fake : Bool) :
    (upload_chunk nre reply values fn fake).err = (upload_chunk nre reply [] "" fake).err := by
  unfold upload_chunk
  cases nre with
  | some e => rfl
  | none =>
    cases fake with
    | true => rfl
    | false =>
      cases reply with
      | error e => rfl
      | ok status =>
        by_cases h : status.StatusCode = 200 <;> simp [h]

theorem upload_chunk_form (nre : Option GoError) (reply : Except GoError HttpStatus)
    (values : List (String × Reader)) (fn : String) (fake : Bool) :
    (upload_chunk nre reply values fn fake).form = values.map (formPart fn) := by
  unfold upload_chunk
  cases nre with
  | some e => rfl
  | none =>
    cases fake with
    | true => rfl
    | false =>
      cases reply with
      | error e => rfl
      | ok status =>
        by_cases h : status.StatusCode = 200 <;> simp [h]

theorem postsOf_append (i : Nat) (xs ys : List Event) :
    postsOf i (xs ++ ys) = postsOf i xs ++ postsOf i ys := by
  simp [postsOf, List.filterMap_append]

theorem postsOf_read (i j n : Nat) (e : Option GoError) (xs : List Event) :
    postsOf i (Event.read j n e :: xs) = postsOf i xs := by
  simp [postsOf, List.filterMap_cons]

theorem postsOf_post_self (i k : Nat) (form : List FormPart) (e : Option GoError)
    (xs : List Event) :
    postsOf i (Event.post i k form e :: xs) = e :: postsOf i xs := by
  simp [postsOf, List.filterMap_cons]

theorem postsOf_post_ne (i j k : Nat) (form : List FormPart) (e : Option GoError)
    (xs : List Event) (h : j ≠ i) :
    postsOf i (Event.post j k form e :: xs) = postsOf i xs := by
  simp [postsOf, List.filterMap_cons, h]

/-- A trace whose events all belong to other chunks has no attempt for chunk `i`. -/
theorem postsOf_eq_nil (i : Nat) (xs : List Event)
    (h : ∀ ev ∈ xs, ev.chunk ≠ some i) : postsOf i xs = [] := by
  induction xs with
  | nil => rfl
  | cons ev xs ih =>
    have hx := ih (fun e he => h e (List.mem_cons_of_mem _ he))
    cases ev with
    | read j n e => rw [postsOf_read]; exact hx
    | post j k form e =>
      have : j ≠ i := by
        intro hji
        exact h _ (List.mem_cons_self _ _) (by simp [Event.chunk, hji])
      rw [postsOf_post_ne _ _ _ _ _ _ this]; exact hx
    | verify p => simpa [postsOf, List.filterMap_cons] using hx

/-- The attempts of the retry loop, as a list of error values: at most `fuel`
many, all but the last one failures, and the loop reports `chunk_failed`
exactly when every attempt failed. -/
theorem retry_loop_spec (env : UploadEnv) (file : UploadFile) (fake : Bool) (i : Nat) :
    ∀ fuel retries values,
      (∀ ev ∈ (retry_loop env file fake i fuel retries values).events, ev.chunk = some i) ∧
      (∀ ev ∈ (retry_loop env file fake i fuel retries values).events, ev.isVerify = false) ∧
      (postsOf i (retry_loop env file fake i fuel retries values).events).length ≤ fuel ∧
      (∀ e ∈ (postsOf i (retry_loop env file fake i fuel retries values).events).dropLast,
        e ≠ none) ∧
      ((retry_loop env file fake i fuel retries values).chunk_failed = true ↔
        ∀ e ∈ postsOf i (retry_loop env file fake i fuel retries values).events, e ≠ none) := by
  intro fuel
  induction fuel with
  | zero =>
    intro retries values
    simp [retry_loop, postsOf]
  | succ f ih =>
    intro retries values
    rw [retry_loop]
    cases hc : (upload_chunk env.newRequestErr (env.post i retries) values
        (env.base file.SourcePath) fake).err with
    | none =>
      simp [hc, postsOf, Event.chunk, Event.isVerify]
    | some e =>
      simp only [hc]
      by_cases hr : retries + 1 ≥ maxRetries
      · simp [hr, hc, postsOf, Event.chunk, Event.isVerify]
      · simp only [hr, if_false]
        obtain ⟨h1, h2, h3, h4, h5⟩ := ih (retries + 1)
          (upload_chunk env.newRequestErr (env.post i retries) values
            (env.base file.SourcePath) fake).values
        refine ⟨?_, ?_, ?_, ?_, ?_⟩
        · intro ev hev
          rcases List.mem_cons.mp hev with h | h
          · subst h; rfl
          · exact h1 ev h
        · intro ev hev
          rcases List.mem_cons.mp hev with h | h
          · subst h; rfl
          · exact h2 ev h
        · rw [postsOf_post_self]
          simp only [List.length_cons]
          omega
        · rw [postsOf_post_self]
          intro x hx
          cases hp : postsOf i (retry_loop env file fake i f (retries + 1)
              (upload_chunk env.newRequestErr (env.post i retries) values
                (env.base file.SourcePath) fake).values).events with
          | nil => rw [hp] at hx; simp at hx
          | cons y ys =>
            rw [hp, List.dropLast_cons₂] at hx
            rcases List.mem_cons.mp hx with h | h
            · subst h; simp
            · exact h4 x (by rw [hp]; exact h)
        · rw [postsOf_post_self]
          constructor
          · intro hf x hx
            rcases List.mem_cons.mp hx with h | h
            · subst h; simp
            · exact (h5.mp hf) x h
          · intro hall
            exact h5.mpr (fun x hx => hall x (List.mem_cons_of_mem _ hx))

/-! ## Facts about the chunk loop -/

/-- One step of the chunk loop, as an equation. -/
theorem chunk_loop_succ (env : UploadEnv) (C S N : Nat) (file : UploadFile) (fake : Bool)
    (left i pos : Nat) :
    chunk_loop env C S N file fake (left + 1) i pos =
      match file_Read env C i pos with
      | (chunk, some e) =>
        { chunk_failed := true, err := some e,
          events := [Event.read i chunk.length (some e)] }
      | (chunk, none) =>
        if (retry_loop env file fake i maxRetries 0
            (chunk_values C S N env.uuid file i chunk)).chunk_failed then
          { retry_loop env file fake i maxRetries 0 (chunk_values C S N env.uuid file i chunk)
            with events := Event.read i chunk.length none ::
              (retry_loop env file fake i maxRetries 0
                (chunk_values C S N env.uuid file i chunk)).events }
        else
          { chunk_loop env C S N file fake left (i + 1) (pos + chunk.length)
            with events := Event.read i chunk.length none ::
              ((retry_loop env file fake i maxRetries 0
                (chunk_values C S N env.uuid file i chunk)).events ++
               (chunk_loop env C S N file fake left (i + 1) (pos + chunk.length)).events) } := by
  rw [chunk_loop]

/-- Every event of the chunk loop entered at index `i` belongs to a chunk with
index at least `i`, and none is the hash verification. -/
theorem chunk_loop_chunk_ge (env : UploadEnv) (C S N : Nat) (file : UploadFile) (fake : Bool) :
    ∀ left i pos, ∀ ev ∈ (chunk_loop env C S N file fake left i pos).events,
      ev.isVerify = false ∧ ∃ j, ev.chunk = some j ∧ i ≤ j := by
  intro left
  induction left with
  | zero => intro i pos ev hev; simp [chunk_loop] at hev
  | succ l ih =>
    intro i pos ev hev
    rw [chunk_loop_succ] at hev
    obtain ⟨r1, r2, -, -, -⟩ := retry_loop_spec env file fake i maxRetries 0
      (chunk_values C S N env.uuid file i (file_Read env C i pos).1)
    rcases hread : file_Read env C i pos with ⟨chunk, _ | e⟩
    · rw [hread] at hev r1 r2
      simp only at hev r1 r2
      split at hev
      · rcases List.mem_cons.mp hev with h | h
        · subst h; exact ⟨rfl, i, rfl, le_rfl⟩
        · exact ⟨r2 ev h, i, r1 ev h, le_rfl⟩
      · rcases List.mem_cons.mp hev with h | h
        · subst h; exact ⟨rfl, i, rfl, le_rfl⟩
        · rcases List.mem_append.mp h with h | h
          · exact ⟨r2 ev h, i, r1 ev h, le_rfl⟩
          · obtain ⟨hv, j, hj, hle⟩ := ih (i + 1) (pos + chunk.length) ev h
            exact ⟨hv, j, hj, by omega⟩
    · rw [hread] at hev
      simp only [List.mem_singleton] at hev
      subst hev; exact ⟨rfl, i, rfl, le_rfl⟩

/-- The loop entered at index `i` makes no attempt for a chunk below `i`. -/
theorem chunk_loop_postsOf_lt (env : UploadEnv) (C S N : Nat) (file : UploadFile) (fake : Bool)
    (left i pos j : Nat) (h : j < i) :
    postsOf j (chunk_loop env C S N file fake left i pos).events = [] := by
  apply postsOf_eq_nil
  intro ev hev hc
  obtain ⟨-, j', hj', hle⟩ := chunk_loop_chunk_ge env C S N file fake left i pos ev hev
  rw [hj'] at hc
  injection hc with hc
  omega

/-- Attempts of the retry loop for chunk `i` do not count for another chunk. -/
theorem retry_loop_postsOf_ne (env : UploadEnv) (file : UploadFile) (fake : Bool)
    (i j fuel retries : Nat) (values : List (String × Reader)) (h : j ≠ i) :
    postsOf j (retry_loop env file fake i fuel retries values).events = [] := by
  apply postsOf_eq_nil
  intro ev hev hc
  have := (retry_loop_spec env file fake i fuel retries values).1 ev hev
  rw [this] at hc
  injection hc with hc
  exact h hc.symm

/-- Per chunk the loop makes at most `maxRetries` attempts, and every attempt
but the last one of a chunk failed. -/
theorem chunk_loop_posts (env : UploadEnv) (C S N : Nat) (file : UploadFile) (fake : Bool) :
    ∀ left i pos j,
      (postsOf j (chunk_loop env C S N file fake left i pos).events).length ≤ maxRetries ∧
      ∀ e ∈ (postsOf j (chunk_loop env C S N file fake left i pos).events).dropLast,
        e ≠ none := by
  intro left
  induction left with
  | zero => intro i pos j; simp [chunk_loop, postsOf]
  | succ l ih =>
    intro i pos j
    rw [chunk_loop_succ]
    obtain ⟨-, -, r3, r4, -⟩ := retry_loop_spec env file fake i maxRetries 0
      (chunk_values C S N env.uuid file i (file_Read env C i pos).1)
    rcases hread : file_Read env C i pos with ⟨chunk, _ | e⟩
    · rw [hread] at r3 r4
      simp only at r3 r4 ⊢
      by_cases hji : j = i
      · subst hji
        split
        · simp only [postsOf_read]
          exact ⟨r3, r4⟩
        · simp only [postsOf_read, postsOf_append]
          rw [chunk_loop_postsOf_lt env C S N file fake l (j + 1) _ j (by omega),
            List.append_nil]
          exact ⟨r3, r4⟩
      · split
        · simp only [postsOf_read]
          rw [retry_loop_postsOf_ne env file fake i j _ _ _ hji]
          simp
        · simp only [postsOf_read, postsOf_append]
          rw [retry_loop_postsOf_ne env file fake i j _ _ _ hji, List.nil_append]
          exact ih (i + 1) (pos + chunk.length) j
    · simp [postsOf]

/-- When all attempts of chunk `j` failed, the loop is left with `chunk_failed`
set and has no event for a later chunk. -/
theorem chunk_loop_abandon (env : UploadEnv) (C S N : Nat) (file : UploadFile) (fake : Bool) :
    ∀ left i pos j,
      postsOf j (chunk_loop env C S N file fake left i pos).events ≠ [] →
      (∀ e ∈ postsOf j (chunk_loop env C S N file fake left i pos).events, e ≠ none) →
      (chunk_loop env C S N file fake left i pos).chunk_failed = true ∧
      ∀ ev ∈ (chunk_loop env C S N file fake left i pos).events,
        ∀ j', ev.chunk = some j' → j' ≤ j := by
  intro left
  induction left with
  | zero => intro i pos j hne; simp [chunk_loop, postsOf] at hne
  | succ l ih =>
    intro i pos j
    rw [chunk_loop_succ]
    obtain ⟨r1, -, -, -, r5⟩ := retry_loop_spec env file fake i maxRetries 0
      (chunk_values C S N env.uuid file i (file_Read env C i pos).1)
    rcases hread : file_Read env C i pos with ⟨chunk, _ | e⟩
    · rw [hread] at r1 r5
      simp only at r1 r5 ⊢
      by_cases hji : j = i
      · subst hji
        split
        · rename_i hf
          intro _ _
          refine ⟨hf, ?_⟩
          intro ev hev j' hj'
          rcases List.mem_cons.mp hev with h | h
          · subst h; simp [Event.chunk] at hj'; omega
          · rw [r1 ev h] at hj'; injection hj' with hj'; omega
        · rename_i hf
          simp only [postsOf_read, postsOf_append]
          rw [chunk_loop_postsOf_lt env C S N file fake l (j + 1) _ j (by omega),
            List.append_nil]
          intro _ hall
          exact absurd (r5.mpr hall) hf
      · split
        · simp only [postsOf_read]
          rw [retry_loop_postsOf_ne env file fake i j _ _ _ hji]
          intro hne; exact absurd rfl hne
        · simp only [postsOf_read, postsOf_append]
          rw [retry_loop_postsOf_ne env file fake i j _ _ _ hji, List.nil_append]
          intro hne hall
          have hij : i < j := by
            by_contra hcon
            exact hne (chunk_loop_postsOf_lt env C S N file fake l (i + 1) _ j (by omega))
          obtain ⟨hf, hev⟩ := ih (i + 1) (pos + chunk.length) j hne hall
          refine ⟨hf, ?_⟩
          intro ev hmem j' hj'
          rcases List.mem_cons.mp hmem with h | h
          · subst h; simp [Event.chunk] at hj'; omega
          · rcases List.mem_append.mp h with h | h
            · rw [r1 ev h] at hj'; injection hj' with hj'; omega
            · exact hev ev h j' hj'
    · intro hne; simp [postsOf] at hne

/-! ## `upload_file`: result and attempts -/

/-- Every event of the retry loop is an upload attempt. -/
theorem retry_loop_posts_only (env : UploadEnv) (file : UploadFile) (fake : Bool) (i : Nat) :
    ∀ fuel retries values, ∀ ev ∈ (retry_loop env file fake i fuel retries values).events,
      ∃ k form err, ev = Event.post i k form err := by
  intro fuel
  induction fuel with
  | zero => intro retries values ev hev; simp [retry_loop] at hev
  | succ f ih =>
    intro retries values ev hev
    rw [retry_loop] at hev
    cases hc : (upload_chunk env.newRequestErr (env.post i retries) values
        (env.base file.SourcePath) fake).err with
    | none =>
      simp only [hc, List.mem_singleton] at hev
      exact ⟨_, _, _, hev⟩
    | some e =>
      simp only [hc] at hev
      by_cases hr : retries + 1 ≥ maxRetries
      · simp only [hr, if_true, List.mem_singleton] at hev
        exact ⟨_, _, _, hev⟩
      · simp only [hr, if_false] at hev
        rcases List.mem_cons.mp hev with h | h
        · exact ⟨_, _, _, h⟩
        · exact ih _ _ ev h

/-- A failed read leaves the chunk loop with `chunk_failed` set. -/
theorem chunk_loop_read_err (env : UploadEnv) (C S N : Nat) (file : UploadFile) (fake : Bool) :
    ∀ left i pos j n e,
      Event.read j n (some e) ∈ (chunk_loop env C S N file fake left i pos).events →
      (chunk_loop env C S N file fake left i pos).chunk_failed = true := by
  intro left
  induction left with
  | zero => intro i pos j n e h; simp [chunk_loop] at h
  | succ l ih =>
    intro i pos j n e
    rw [chunk_loop_succ]
    rcases hread : file_Read env C i pos with ⟨chunk, _ | e'⟩
    · simp only
      split
      · rename_i hf; intro _; exact hf
      · intro hmem
        rcases List.mem_cons.mp hmem with h | h
        · cases h
        · rcases List.mem_append.mp h with h | h
          · obtain ⟨k, form, err, hk⟩ := retry_loop_posts_only env file fake i _ _ _ _ h
            cases hk
          · exact ih _ _ j n e h
    · intro _; rfl

/-- The events of `upload_file` are those of its chunk loop, followed by the
call of `verifyHash` when that call is reached and returns. -/
theorem upload_file_events (env : UploadEnv) (C : Nat) (file : UploadFile) (fake : Bool)
    (fuel S : Nat) (hstat : env.stat = .ok S) (hopen : env.openErr = none) :
    ((chunk_loop env C S (nof_chunks S C) file fake (nof_chunks S C) 0 0).chunk_failed = true →
      (upload_file env C file fake fuel).events =
        (chunk_loop env C S (nof_chunks S C) file fake (nof_chunks S C) 0 0).events ∧
      (upload_file env C file fake fuel).outcome = .returned none) ∧
    ((chunk_loop env C S (nof_chunks S C) file fake (nof_chunks S C) 0 0).chunk_failed = false →
      (upload_file env C file fake fuel).events =
        (chunk_loop env C S (nof_chunks S C) file fake (nof_chunks S C) 0 0).events ∨
      ∃ p, (upload_file env C file fake fuel).events =
        (chunk_loop env C S (nof_chunks S C) file fake (nof_chunks S C) 0 0).events ++
          [Event.verify p]) := by
  constructor
  · intro hf
    simp [upload_file, hstat, hopen, hf]
  · intro hf
    simp only [upload_file, hstat, hopen, hf]
    cases hv : verifyHash file.SourcePath env.urlErr env.hashLocal env.flow fuel with
    | none => left; simp
    | some v =>
      right
      refine ⟨v.polls, ?_⟩
      cases he : v.err with
      | some e => simp [he]
      | none =>
        cases hm : v.isMatch <;> simp [he, hm]

/-- Without a size or without an open file nothing is read or sent. -/
theorem upload_file_events_nil (env : UploadEnv) (C : Nat) (file : UploadFile) (fake : Bool)
    (fuel : Nat) (h : (∃ e, env.stat = .error e) ∨ (∃ e, env.openErr = some e)) :
    (upload_file env C file fake fuel).events = [] := by
  unfold upload_file
  cases hs : env.stat with
  | error e => rfl
  | ok S =>
    cases ho : env.openErr with
    | some e => rfl
    | none =>
      rcases h with ⟨e, he⟩ | ⟨e, he⟩
      · rw [hs] at he; cases he
      · rw [ho] at he; cases he

theorem postsOf_append_verify (i p : Nat) (xs : List Event) :
    postsOf i (xs ++ [Event.verify p]) = postsOf i xs := by
  simp [postsOf, List.filterMap_append]

/-- C1 (the code departs from the claim): whenever a chunk cannot be read, or
all three upload attempts of a chunk fail, `upload_file` returns the `nil`
error, that is, it reports success. The `err` it returns is the variable of the
function body, not the one declared inside the loop. -/
theorem C1_upload_file_nil_on_failed_chunk (env : UploadEnv) (chunkSize : Nat)
    (file : UploadFile) (fake : Bool) (fuel : Nat)
    (h : (∃ i n e, Event.read i n (some e) ∈ (upload_file env chunkSize file fake fuel).events) ∨
         (∃ i, (postsOf i (upload_file env chunkSize file fake fuel).events).length = 3 ∧
            ∀ e ∈ postsOf i (upload_file env chunkSize file fake fuel).events, e ≠ none)) :
    (upload_file env chunkSize file fake fuel).outcome = .returned none := by
  cases hs : env.stat with
  | error e =>
    rw [upload_file_events_nil env chunkSize file fake fuel (Or.inl ⟨e, hs⟩)] at h
    simp [postsOf] at h
  | ok S =>
    cases ho : env.openErr with
    | some e =>
      rw [upload_file_events_nil env chunkSize file fake fuel (Or.inr ⟨e, ho⟩)] at h
      simp [postsOf] at h
    | none =>
      obtain ⟨h1, h2⟩ := upload_file_events env chunkSize file fake fuel S hs ho
      cases hf : (chunk_loop env chunkSize S (nof_chunks S chunkSize) file fake
          (nof_chunks S chunkSize) 0 0).chunk_failed with
      | true => exact (h1 hf).2
      | false =>
        exfalso
        have key : (∃ i n e, Event.read i n (some e) ∈ (chunk_loop env chunkSize S
              (nof_chunks S chunkSize) file fake (nof_chunks S chunkSize) 0 0).events) ∨
            (∃ i, (postsOf i (chunk_loop env chunkSize S (nof_chunks S chunkSize) file fake
              (nof_chunks S chunkSize) 0 0).events).length = 3 ∧
              ∀ e ∈ postsOf i (chunk_loop env chunkSize S (nof_chunks S chunkSize) file fake
                (nof_chunks S chunkSize) 0 0).events, e ≠ none) := by
          rcases h2 hf with he | ⟨p, he⟩
          · rw [he] at h; exact h
          · rw [he] at h
            rcases h with ⟨i, n, e, hmem⟩ | ⟨i, hlen, hall⟩
            · left
              refine ⟨i, n, e, ?_⟩
              rcases List.mem_append.mp hmem with hm | hm
              · exact hm
              · simp at hm
            · right
              rw [postsOf_append_verify] at hlen hall
              exact ⟨i, hlen, hall⟩
        rcases key with ⟨i, n, e, hmem⟩ | ⟨i, hlen, hall⟩
        · have := chunk_loop_read_err env chunkSize S _ file fake _ _ _ i n e hmem
          rw [hf] at this; cases this
        · have hne : postsOf i (chunk_loop env chunkSize S (nof_chunks S chunkSize) file fake
              (nof_chunks S chunkSize) 0 0).events ≠ [] := by
            intro h0; rw [h0] at hlen; simp at hlen
          have := (chunk_loop_abandon env chunkSize S _ file fake _ _ _ i hne hall).1
          rw [hf] at this; cases this

/-- C1, at a concrete unit: every upload attempt is answered with status 500,
chunk 0 uses up its three attempts, and `upload_file` returns `nil`. -/
theorem C1_upload_file_nil_on_failed_chunk_witness :
    (postsOf 0 (upload_file rejectingEnv 2 sampleFile false 5).events =
        [some "bad status: 500 Internal Server Error", some "bad status: 500 Internal Server Error",
         some "bad status: 500 Internal Server Error"]) ∧
    (upload_file rejectingEnv 2 sampleFile false 5).outcome = .returned none :=
  ⟨by decide,
   C1_upload_file_nil_on_failed_chunk rejectingEnv 2 sampleFile false 5
     (Or.inr ⟨0, by decide, by decide⟩)⟩

/-- C2 (the claim fails): against a server that reports the assembled state with
a non-empty hash different from the local one on every query, `verifyHash`
returns `(false, nil)` after a single query. -/
theorem C2_verifyHash_returns_on_mismatch :
    verifyHash "/data/a.bin" none (.ok "74f8") (assembledWith "0000") 2 =
      some { isMatch := false, err := none, polls := 1 } := by
  decide

/-- C2 (amended): a status reply 200 with state 2 and a server hash different
from the local hash ends the loop with `(false, nil)` and no further query when
the server hash is non-empty (the loop runs only while `hashServer == ""`); it
leads to another query only when the server hash is empty. Against a server
that reports state 2 with an empty hash on every query `verifyHash` never
returns. -/
theorem C2_verifyHash_mismatch (curFile hashLocal : String) (flow : Nat → HttpReply FlowFile) :
    (∀ k data, flow k = .response 200 (.ok data) → data.State = 2 →
      data.ContentHash ≠ hashLocal → data.ContentHash ≠ "" →
      ∀ fuel, verifyHash_loop curFile hashLocal flow (fuel + 2) k "" =
        some { isMatch := false, err := none, polls := k + 1 }) ∧
    (∀ k data, flow k = .response 200 (.ok data) → data.State = 2 →
      data.ContentHash ≠ hashLocal → data.ContentHash = "" →
      ∀ fuel, verifyHash_loop curFile hashLocal flow (fuel + 1) k "" =
        verifyHash_loop curFile hashLocal flow fuel (k + 1) "") ∧
    ((∀ k, flow k = .response 200 (.ok { State := 2, ContentHash := "" })) →
      hashLocal ≠ "" →
      ∀ fuel, verifyHash curFile none (.ok hashLocal) flow fuel = none) := by
  refine ⟨?_, ?_, ?_⟩
  · intro k data hk hs hne hne' fuel
    have h1 : hashLocal ≠ data.ContentHash := fun h => hne h.symm
    rw [verifyHash_loop]
    simp only [hk, hs, if_true, h1, ne_eq, not_false_eq_true]
    rw [verifyHash_loop]
    simp [hne']
  · intro k data hk hs hne he fuel
    have h1 : hashLocal ≠ data.ContentHash := fun h => hne h.symm
    rw [verifyHash_loop]
    simp only [hk, hs, if_true, h1, ne_eq, not_false_eq_true]
    rw [he]
  · intro hall hne fuel
    simp only [verifyHash]
    have : ∀ fuel k, verifyHash_loop curFile hashLocal flow fuel k "" = none := by
      intro fuel
      induction fuel with
      | zero => intro k; rfl
      | succ f ih =>
        intro k
        rw [verifyHash_loop]
        simp only [hall k, if_true, ne_eq, hne, not_false_eq_true]
        exact ih (k + 1)
    exact this fuel 0

/-- C2 (amended), at concrete servers: a non-empty wrong hash ends the
verification at once, an empty hash keeps it polling for ever. -/
theorem C2_verifyHash_mismatch_witness :
    (∀ fuel, verifyHash_loop "/data/a.bin" "74f8" (assembledWith "0000") (fuel + 2) 0 "" =
        some { isMatch := false, err := none, polls := 1 }) ∧
    (∀ fuel, verifyHash_loop "/data/a.bin" "74f8" (assembledWith "") (fuel + 1) 0 "" =
        verifyHash_loop "/data/a.bin" "74f8" (assembledWith "") fuel 1 "") ∧
    (∀ fuel, verifyHash "/data/a.bin" none (.ok "74f8") (assembledWith "") fuel = none) :=
  ⟨(C2_verifyHash_mismatch "/data/a.bin" "74f8" (assembledWith "0000")).1 0
      { State := 2, ContentHash := "0000" } rfl rfl (by decide) (by decide),
   (C2_verifyHash_mismatch "/data/a.bin" "74f8" (assembledWith "")).2.1 0
      { State := 2, ContentHash := "" } rfl rfl (by decide) rfl,
   (C2_verifyHash_mismatch "/data/a.bin" "74f8" (assembledWith "")).2.2
      (fun _ => rfl) (by decide)⟩

/-- C5: for every chunk `i`, `upload_file` makes at most three upload attempts,
and every attempt but the last one of the chunk failed (it stops at the first
success); when three attempts of chunk `i` were made and all failed, the run
has no event for any later chunk, does not call `verifyHash`, and returns. -/
theorem C5_retry_limit (env : UploadEnv) (chunkSize : Nat) (file : UploadFile) (fake : Bool)
    (fuel : Nat) (i : Nat) :
    (postsOf i (upload_file env chunkSize file fake fuel).events).length ≤ 3 ∧
    (∀ e ∈ (postsOf i (upload_file env chunkSize file fake fuel).events).dropLast, e ≠ none) ∧
    ((postsOf i (upload_file env chunkSize file fake fuel).events).length = 3 →
      (∀ e ∈ postsOf i (upload_file env chunkSize file fake fuel).events, e ≠ none) →
      (∀ ev ∈ (upload_file env chunkSize file fake fuel).events,
        ev.isVerify = false ∧ ∀ j, ev.chunk = some j → j ≤ i) ∧
      ∃ err, (upload_file env chunkSize file fake fuel).outcome = .returned err) := by
  cases hs : env.stat with
  | error e =>
    rw [upload_file_events_nil env chunkSize file fake fuel (Or.inl ⟨e, hs⟩)]
    simp [postsOf]
  | ok S =>
    cases ho : env.openErr with
    | some e =>
      rw [upload_file_events_nil env chunkSize file fake fuel (Or.inr ⟨e, ho⟩)]
      simp [postsOf]
    | none =>
      obtain ⟨h1, h2⟩ := upload_file_events env chunkSize file fake fuel S hs ho
      obtain ⟨p1, p2⟩ := chunk_loop_posts env chunkSize S (nof_chunks S chunkSize) file fake
        (nof_chunks S chunkSize) 0 0 i
      have hposts : postsOf i (upload_file env chunkSize file fake fuel).events =
          postsOf i (chunk_loop env chunkSize S (nof_chunks S chunkSize) file fake
            (nof_chunks S chunkSize) 0 0).events := by
        cases hf : (chunk_loop env chunkSize S (nof_chunks S chunkSize) file fake
            (nof_chunks S chunkSize) 0 0).chunk_failed with
        | true => rw [(h1 hf).1]
        | false =>
          rcases h2 hf with he | ⟨p, he⟩
          · rw [he]
          · rw [he, postsOf_append_verify]
      rw [hposts]
      refine ⟨p1, p2, ?_⟩
      intro hlen hall
      have hne : postsOf i (chunk_loop env chunkSize S (nof_chunks S chunkSize) file fake
          (nof_chunks S chunkSize) 0 0).events ≠ [] := by
        intro h0; rw [h0] at hlen; simp at hlen
      obtain ⟨hf, hev⟩ := chunk_loop_abandon env chunkSize S _ file fake _ _ _ i hne hall
      rw [(h1 hf).1]
      refine ⟨?_, none, (h1 hf).2⟩
      intro ev hmem
      exact ⟨(chunk_loop_chunk_ge env chunkSize S _ file fake _ _ _ ev hmem).1, hev ev hmem⟩

/-- C5, at a concrete unit whose first chunk is rejected three times. -/
theorem C5_retry_limit_witness :
    (postsOf 0 (upload_file rejectingEnv 2 sampleFile false 5).events).length = 3 ∧
    ((∀ ev ∈ (upload_file rejectingEnv 2 sampleFile false 5).events,
        ev.isVerify = false ∧ ∀ j, ev.chunk = some j → j ≤ 0) ∧
      ∃ err, (upload_file rejectingEnv 2 sampleFile false 5).outcome = .returned err) :=
  ⟨by decide,
   (C5_retry_limit rejectingEnv 2 sampleFile false 5 0).2.2 (by decide) (by decide)⟩

/-! ## `upload_file`: the chunks of a unit -/

theorem lt_ceilDiv_iff (S C i : Nat) (hC : 0 < C) : i < (S + C - 1) / C ↔ i * C < S := by
  rw [Nat.lt_iff_add_one_le, Nat.le_div_iff_mul_le hC, Nat.add_mul]
  omega

/-- The retry loop succeeds when one of the attempts it can still make is accepted. -/
theorem retry_loop_ok (env : UploadEnv) (file : UploadFile) (fake : Bool) (i : Nat) :
    ∀ fuel retries values,
      (∃ k, retries ≤ k ∧ k < retries + fuel ∧ k < maxRetries ∧ attemptErr env fake i k = none) →
      (retry_loop env file fake i fuel retries values).chunk_failed = false := by
  intro fuel
  induction fuel with
  | zero => rintro retries values ⟨k, h1, h2, -, -⟩; omega
  | succ f ih =>
    rintro retries values ⟨k, h1, h2, h3, h4⟩
    rw [retry_loop]
    cases hc : (upload_chunk env.newRequestErr (env.post i retries) values
        (env.base file.SourcePath) fake).err with
    | none => rfl
    | some e =>
      simp only [hc]
      have hk : k ≠ retries := by
        intro hk
        rw [upload_chunk_err] at hc
        rw [hk, attemptErr, hc] at h4
        cases h4
      have hr : ¬ (retries + 1 ≥ maxRetries) := by omega
      simp only [hr, if_false]
      exact ih (retries + 1) _ ⟨k, by omega, by omega, h3, h4⟩

theorem firstPosts_append (xs ys : List Event) :
    firstPosts (xs ++ ys) = firstPosts xs ++ firstPosts ys := by
  simp [firstPosts, List.filterMap_append]

theorem readsOf_append (xs ys : List Event) :
    readsOf (xs ++ ys) = readsOf xs ++ readsOf ys := by
  simp [readsOf, List.filterMap_append]

/-- Later attempts are not first attempts. -/
theorem retry_loop_firstPosts_pos (env : UploadEnv) (file : UploadFile) (fake : Bool) (i : Nat) :
    ∀ fuel retries values, 0 < retries →
      firstPosts (retry_loop env file fake i fuel retries values).events = [] := by
  intro fuel
  induction fuel with
  | zero => intro retries values _; rfl
  | succ f ih =>
    intro retries values hpos
    obtain ⟨r, rfl⟩ : ∃ r, retries = r + 1 := ⟨retries - 1, by omega⟩
    rw [retry_loop]
    cases hc : (upload_chunk env.newRequestErr (env.post i (r + 1)) values
        (env.base file.SourcePath) fake).err with
    | none => simp [hc, firstPosts]
    | some e =>
      simp only [hc]
      by_cases hr : r + 1 + 1 ≥ maxRetries
      · simp [hr, firstPosts]
      · simp only [hr, if_false]
        have := ih (r + 1 + 1) (upload_chunk env.newRequestErr (env.post i (r + 1)) values
          (env.base file.SourcePath) fake).values (by omega)
        simpa [firstPosts] using this

/-- The first attempt of the retry loop submits the form built from `values`. -/
theorem retry_loop_firstPosts (env : UploadEnv) (file : UploadFile) (fake : Bool) (i : Nat)
    (fuel : Nat) (values : List (String × Reader)) :
    firstPosts (retry_loop env file fake i (fuel + 1) 0 values).events =
      [(i, values.map (formPart (env.base file.SourcePath)))] := by
  rw [retry_loop]
  have hform := upload_chunk_form env.newRequestErr (env.post i 0) values
    (env.base file.SourcePath) fake
  cases hc : (upload_chunk env.newRequestErr (env.post i 0) values
      (env.base file.SourcePath) fake).err with
  | none => simp [hc, firstPosts, hform]
  | some e =>
    simp only [hc]
    by_cases hr : 0 + 1 ≥ maxRetries
    · simp [hr, firstPosts, hform]
    · simp only [hr, if_false]
      have := retry_loop_firstPosts_pos env file fake i fuel (0 + 1)
        (upload_chunk env.newRequestErr (env.post i 0) values
          (env.base file.SourcePath) fake).values (by omega)
      simp only [firstPosts] at this ⊢
      rw [List.filterMap_cons]
      simp [this, hform]

theorem retry_loop_readsOf (env : UploadEnv) (file : UploadFile) (fake : Bool) (i : Nat)
    (fuel retries : Nat) (values : List (String × Reader)) :
    readsOf (retry_loop env file fake i fuel retries values).events = [] := by
  unfold readsOf
  rw [List.filterMap_eq_nil_iff]
  intro ev hev
  obtain ⟨k, form, err, rfl⟩ := retry_loop_posts_only env file fake i fuel retries values ev hev
  rfl

theorem chunkBytes_length (content : List UInt8) (C i : Nat) :
    (chunkBytes content C i).length = min C (content.length - i * C) := by
  simp [chunkBytes, List.length_take, List.length_drop]

/-- When every chunk is accepted within the attempts, no read fails and a
chunk fits one read, the chunk loop reads and sends the chunks `i, i+1, ...` one after the other. -/
theorem chunk_loop_ok (env : UploadEnv) (C S N : Nat) (file : UploadFile) (fake : Bool)
    (hC : 0 < C) (hCmax : C ≤ maxRW) (hlen : env.content.length = S)
    (hN : N = (S + C - 1) / C) (hread : ∀ i, env.readErr i = none)
    (hacc : ∀ i < N, ∃ k < maxRetries, attemptErr env fake i k = none) :
    ∀ left i pos, i + left = N → (0 < left → pos = i * C) →
      (chunk_loop env C S N file fake left i pos).chunk_failed = false ∧
      readsOf (chunk_loop env C S N file fake left i pos).events =
        (List.range' i left).map (fun j => (j, (chunkBytes env.content C j).length)) ∧
      firstPosts (chunk_loop env C S N file fake left i pos).events =
        (List.range' i left).map (fun j => (j, chunkForm env C S N file j)) := by
  intro left
  induction left with
  | zero => intro i pos _ _; simp [chunk_loop, readsOf, firstPosts]
  | succ l ih =>
    intro i pos hi hpos
    have hpos' : pos = i * C := hpos (by omega)
    subst hpos'
    have hiN : i < N := by omega
    have hiS : i * C < S := (lt_ceilDiv_iff S C i hC).mp (hN ▸ hiN)
    have hrd : file_Read env C i (i * C) = (chunkBytes env.content C i, none) := by
      unfold file_Read
      rw [hread i]
      have h1 : ¬ C = 0 := by omega
      have h2 : ¬ env.content.length ≤ i * C := by omega
      simp only [h1, h2, if_false]
      rw [Nat.min_eq_left hCmax]
      rfl
    obtain ⟨k, hk, hkacc⟩ := hacc i hiN
    have hok := retry_loop_ok env file fake i maxRetries 0
      (chunk_values C S N env.uuid file i (chunkBytes env.content C i))
      ⟨k, by omega, by omega, hk, hkacc⟩
    have hnext : 0 < l → i * C + (chunkBytes env.content C i).length = (i + 1) * C := by
      intro hl
      have : (i + 1) * C < S := (lt_ceilDiv_iff S C (i + 1) hC).mp (hN ▸ (by omega))
      rw [chunkBytes_length, hlen, Nat.add_mul] at *
      rw [Nat.min_eq_left (by omega)]
      omega
    obtain ⟨ih1, ih2, ih3⟩ := ih (i + 1) (i * C + (chunkBytes env.content C i).length)
      (by omega) hnext
    rw [chunk_loop_succ, hrd]
    simp only [hok]
    refine ⟨ih1, ?_, ?_⟩
    · rw [List.range'_succ, List.map_cons, ← ih2]
      have : ∀ xs, readsOf (Event.read i (chunkBytes env.content C i).length none :: xs) =
          (i, (chunkBytes env.content C i).length) :: readsOf xs := by
        intro xs; simp [readsOf, List.filterMap_cons]
      simp only [Bool.false_eq_true, if_false]
      rw [this, readsOf_append, retry_loop_readsOf, List.nil_append]
    · rw [List.range'_succ, List.map_cons, ← ih3]
      have : ∀ xs, firstPosts (Event.read i (chunkBytes env.content C i).length none :: xs) =
          firstPosts xs := by
        intro xs; simp [firstPosts, List.filterMap_cons]
      simp only [Bool.false_eq_true, if_false]
      rw [this, firstPosts_append]
      have hfp := retry_loop_firstPosts env file fake i 2
        (chunk_values C S N env.uuid file i (chunkBytes env.content C i))
      have e3 : maxRetries = 2 + 1 := rfl
      rw [e3, hfp]
      rfl

/-- Cutting a list into pieces of `C` elements and gluing them gives the list back. -/
theorem flatten_chunkBytes (C : Nat) : ∀ (n : Nat) (content : List UInt8),
    content.length ≤ n * C →
    ((List.range n).map (chunkBytes content C)).flatten = content := by
  intro n
  induction n with
  | zero =>
    intro content h
    have : content = [] := List.eq_nil_of_length_eq_zero (by omega)
    simp [this]
  | succ n ih =>
    intro content h
    rw [List.range_succ_eq_map, List.map_cons, List.flatten_cons, List.map_map]
    have h1 : chunkBytes content C 0 = content.take C := by simp [chunkBytes]
    have h2 : (chunkBytes content C ∘ Nat.succ) = chunkBytes (content.drop C) C := by
      funext i
      simp only [Function.comp, chunkBytes, List.drop_drop]
      congr 2
      rw [Nat.succ_mul]; omega
    rw [h1, h2, ih (content.drop C) (by rw [List.length_drop, Nat.succ_mul] at *; omega)]
    exact List.take_append_drop C content

/-- The length of chunk `i`: a full chunk except for the last one. -/
theorem chunkBytes_length_eq (content : List UInt8) (C S N i : Nat) (hC : 0 < C)
    (hlen : content.length = S) (hN : N = (S + C - 1) / C) (hi : i < N) :
    (chunkBytes content C i).length = if i + 1 < N then C else S - (N - 1) * C := by
  rw [chunkBytes_length, hlen]
  have hiS : i * C < S := (lt_ceilDiv_iff S C i hC).mp (hN ▸ hi)
  split
  · rename_i h
    have : (i + 1) * C < S := (lt_ceilDiv_iff S C (i + 1) hC).mp (hN ▸ h)
    rw [Nat.add_mul] at this
    exact Nat.min_eq_left (by omega)
  · rename_i h
    have hiN : i = N - 1 := by omega
    have hNS : ¬ (N * C < S) := by
      intro hlt
      have := (lt_ceilDiv_iff S C N hC).mpr hlt
      omega
    have e : N * C = (N - 1) * C + C := by
      have : N = (N - 1) + 1 := by omega
      conv_lhs => rw [this, Nat.add_mul]
      simp
    rw [← hiN] at e ⊢
    exact Nat.min_eq_right (by omega)

theorem readsOf_append_verify (p : Nat) (xs : List Event) :
    readsOf (xs ++ [Event.verify p]) = readsOf xs := by
  simp [readsOf, List.filterMap_append]

theorem firstPosts_append_verify (p : Nat) (xs : List Event) :
    firstPosts (xs ++ [Event.verify p]) = firstPosts xs := by
  simp [firstPosts, List.filterMap_append]

/-- C4 (the code departs from the claim): for a file of `100 * 2^47 + 1` bytes
and the default chunk size, `float64(filesize)` rounds the size down to
`100 * 2^47`, and the chunk count computed by `upload_file` is `2^27`, one less
than `ceil(S / C) = 2^27 + 1`: the chunks cover `S - 1` bytes only. -/
theorem C4_nof_chunks_float_rounding :
    nof_chunks (100 * 2 ^ 47 + 1) UPLOAD_CHUCK_SIZE = 2 ^ 27 ∧
    (100 * 2 ^ 47 + 1 + UPLOAD_CHUCK_SIZE - 1) / UPLOAD_CHUCK_SIZE = 2 ^ 27 + 1 ∧
    nof_chunks (100 * 2 ^ 47 + 1) UPLOAD_CHUCK_SIZE * UPLOAD_CHUCK_SIZE < 100 * 2 ^ 47 + 1 := by
  decide

/-- Where the code does meet the chunking it aims at: for every file size
`S < 2^53` and every chunk size `0 < C ≤ 2^30` (what one read delivers), when
the file has `S` bytes, no read fails and every chunk is accepted within its
attempts, `upload_file` computes `N = ceil(S / C)` chunks
(the least `N` with `S ≤ N * C`), reads and first sends the chunks with the
indices `0..N-1` in increasing order, every chunk but the last has `C` bytes
and the last has `S - (N-1) * C`, the lengths sum to `S` and the payloads glued
together are the file. For `S = 250 u` and `C = 100 u` (`u` one MB or one MiB)
these are 3 chunks of `100 u`, `100 u` and `50 u` bytes. -/
theorem chunking_exact (env : UploadEnv) (chunkSize : Nat) (file : UploadFile) (fake : Bool)
    (fuel S : Nat) (hS : S < 2 ^ 53) (hC : 0 < chunkSize) (hCmax : chunkSize ≤ maxRW)
    (hstat : env.stat = .ok S) (hopen : env.openErr = none)
    (hlen : env.content.length = S) (hread : ∀ i, env.readErr i = none)
    (hacc : ∀ i < nof_chunks S chunkSize, ∃ k < maxRetries, attemptErr env fake i k = none) :
    nof_chunks S chunkSize = (S + chunkSize - 1) / chunkSize ∧
    (S ≤ nof_chunks S chunkSize * chunkSize ∧
      ∀ M, S ≤ M * chunkSize → nof_chunks S chunkSize ≤ M) ∧
    readsOf (upload_file env chunkSize file fake fuel).events =
      (List.range (nof_chunks S chunkSize)).map (fun i =>
        (i, if i + 1 < nof_chunks S chunkSize then chunkSize
            else S - (nof_chunks S chunkSize - 1) * chunkSize)) ∧
    firstPosts (upload_file env chunkSize file fake fuel).events =
      (List.range (nof_chunks S chunkSize)).map (fun i =>
        (i, chunkForm env chunkSize S (nof_chunks S chunkSize) file i)) ∧
    ((List.range (nof_chunks S chunkSize)).map (fun i =>
        if i + 1 < nof_chunks S chunkSize then chunkSize
        else S - (nof_chunks S chunkSize - 1) * chunkSize)).sum = S ∧
    ((List.range (nof_chunks S chunkSize)).map (chunkBytes env.content chunkSize)).flatten =
      env.content ∧
    (∀ u, S = 250 * u → chunkSize = 100 * u →
      readsOf (upload_file env chunkSize file fake fuel).events =
        [(0, 100 * u), (1, 100 * u), (2, 50 * u)]) := by
  have hC63 : chunkSize < 2 ^ 63 :=
    lt_of_le_of_lt hCmax (by norm_num [maxRW])
  have hN := nof_chunks_eq S chunkSize hS hC hC63
  have hev := (upload_file_events env chunkSize file fake fuel S hstat hopen).2
  generalize nof_chunks S chunkSize = N at hN hacc hev ⊢
  have hcover : S ≤ N * chunkSize := by
    by_contra hlt
    have := (lt_ceilDiv_iff S chunkSize N hC).mpr (not_le.mp hlt)
    omega
  have hleast : ∀ M, S ≤ M * chunkSize → N ≤ M := by
    intro M hM
    by_contra hlt
    have := (lt_ceilDiv_iff S chunkSize M hC).mp (hN ▸ not_le.mp hlt)
    omega
  obtain ⟨l1, l2, l3⟩ := chunk_loop_ok env chunkSize S N file fake hC hCmax hlen hN hread hacc
    N 0 0 (by omega) (by intro _; simp)
  have hlens : (List.range N).map (fun j => (j, (chunkBytes env.content chunkSize j).length)) =
      (List.range N).map (fun i =>
        (i, if i + 1 < N then chunkSize else S - (N - 1) * chunkSize)) := by
    apply List.map_congr_left
    intro i hi
    rw [chunkBytes_length_eq env.content chunkSize S N i hC hlen hN (List.mem_range.mp hi)]
  have hflat := flatten_chunkBytes chunkSize N env.content (by omega)
  have hsum : ((List.range N).map (fun i =>
      if i + 1 < N then chunkSize else S - (N - 1) * chunkSize)).sum = S := by
    have e : (List.range N).map (fun i =>
        if i + 1 < N then chunkSize else S - (N - 1) * chunkSize) =
        ((List.range N).map (chunkBytes env.content chunkSize)).map List.length := by
      rw [List.map_map]
      apply List.map_congr_left
      intro i hi
      simp only [Function.comp]
      rw [chunkBytes_length_eq env.content chunkSize S N i hC hlen hN (List.mem_range.mp hi)]
    rw [e, ← List.length_flatten, hflat, hlen]
  have hreads : readsOf (upload_file env chunkSize file fake fuel).events =
      (List.range N).map (fun i =>
        (i, if i + 1 < N then chunkSize else S - (N - 1) * chunkSize)) := by
    rw [← hlens, List.range_eq_range', ← l2]
    rcases hev l1 with he | ⟨p, he⟩
    · rw [he]
    · rw [he, readsOf_append_verify]
  have hposts : firstPosts (upload_file env chunkSize file fake fuel).events =
      (List.range N).map (fun i => (i, chunkForm env chunkSize S N file i)) := by
    rw [List.range_eq_range', ← l3]
    rcases hev l1 with he | ⟨p, he⟩
    · rw [he]
    · rw [he, firstPosts_append_verify]
  refine ⟨hN, ⟨hcover, hleast⟩, hreads, hposts, hsum, hflat, ?_⟩
  intro u hu hcu
  have hupos : 0 < u := by omega
  have hN3 : N = 3 := by
    rw [hN, hu, hcu]
    apply Nat.div_eq_of_lt_le <;> omega
  rw [hreads, hN3, hu, hcu]
  simp only [List.range_succ, List.range_zero, List.nil_append, List.map_append, List.map_cons,
    List.map_nil, List.cons_append]
  have e : 250 * u - (3 - 1) * (100 * u) = 50 * u := by omega
  simp [e]

/-- The chunking of a unit of five bytes sent in chunks of two bytes, and of a
unit of 250 bytes sent in chunks of 100 bytes. -/
theorem chunking_exact_sample :
    (readsOf (upload_file sampleEnv 2 sampleFile false 5).events = [(0, 2), (1, 2), (2, 1)] ∧
      ((List.range (nof_chunks 5 2)).map (chunkBytes sampleEnv.content 2)).flatten =
        [1, 2, 3, 4, 5]) ∧
    readsOf (upload_file { sampleEnv with stat := .ok 250, content := List.replicate 250 0 }
        100 sampleFile false 5).events = [(0, 100), (1, 100), (2, 50)] :=
  ⟨⟨((chunking_exact sampleEnv 2 sampleFile false 5 5 (by norm_num) (by norm_num)
        (by norm_num [maxRW])
        rfl rfl rfl (fun _ => rfl) (fun _ _ => ⟨0, by decide, rfl⟩)).2.2.1).trans (by decide),
     (chunking_exact sampleEnv 2 sampleFile false 5 5 (by norm_num) (by norm_num)
        (by norm_num [maxRW])
        rfl rfl rfl (fun _ => rfl) (fun _ _ => ⟨0, by decide, rfl⟩)).2.2.2.2.2.1⟩,
   (chunking_exact { sampleEnv with stat := .ok 250, content := List.replicate 250 0 }
      100 sampleFile false 5 250 (by norm_num) (by norm_num) (by norm_num [maxRW])
      rfl rfl (List.length_replicate 250 0) (fun _ => rfl) (fun _ _ => ⟨0, by decide, rfl⟩)).2.2.2.2.2.2 1 rfl rfl⟩


/-- With a chunk size above what one read delivers, the chunk is cut short: for
a file of `S` bytes, `2^30 < S ≤ C`, `upload_file` computes one chunk, reads
`2^30` bytes for it and reads nothing else, so the rest of the file is never
sent. -/
theorem short_read_drops_tail (env : UploadEnv) (chunkSize : Nat) (file : UploadFile)
    (fake : Bool) (fuel S : Nat) (hC63 : chunkSize < 2 ^ 63) (hS1 : maxRW < S)
    (hS2 : S ≤ chunkSize) (hS53 : S < 2 ^ 53)
    (hstat : env.stat = .ok S) (hopen : env.openErr = none)
    (hlen : env.content.length = S) (hread : env.readErr 0 = none) :
    nof_chunks S chunkSize = 1 ∧
    readsOf (upload_file env chunkSize file fake fuel).events = [(0, maxRW)] := by
  have hC : 0 < chunkSize := by omega
  have hN : nof_chunks S chunkSize = 1 := by
    rw [nof_chunks_eq S chunkSize hS53 hC hC63]
    apply Nat.div_eq_of_lt_le <;> omega
  refine ⟨hN, ?_⟩
  have hrd : file_Read env chunkSize 0 0 = (env.content.take maxRW, none) := by
    unfold file_Read
    rw [hread]
    have h1 : ¬ chunkSize = 0 := by omega
    have h2 : ¬ env.content.length ≤ 0 := by omega
    simp only [h1, h2, if_false, List.drop_zero]
    rw [Nat.min_eq_right (by omega)]
  have hl : (env.content.take maxRW).length = maxRW := by
    rw [List.length_take, hlen]
    exact Nat.min_eq_left (by omega)
  have hloop : readsOf (chunk_loop env chunkSize S 1 file fake 1 0 0).events = [(0, maxRW)] := by
    rw [chunk_loop_succ, hrd]
    simp only [hl]
    have hcons : ∀ xs, readsOf (Event.read 0 maxRW none :: xs) = (0, maxRW) :: readsOf xs := by
      intro xs; simp [readsOf, List.filterMap_cons]
    split
    · simp only
      rw [hcons, retry_loop_readsOf]
    · simp only
      rw [hcons, readsOf_append, retry_loop_readsOf]
      simp [chunk_loop, readsOf]
  obtain ⟨h1, h2⟩ := upload_file_events env chunkSize file fake fuel S hstat hopen
  rw [hN] at h1 h2
  cases hf : (chunk_loop env chunkSize S 1 file fake 1 0 0).chunk_failed with
  | true => rw [(h1 hf).1, hloop]
  | false =>
    rcases h2 hf with he | ⟨p, he⟩
    · rw [he, hloop]
    · rw [he, readsOf_append_verify, hloop]

/-! ## `analyse_paths` -/

/-- The walk over a directory appends the large files to the direct list and
the small ones to the zip-candidate list, and leaves `files_only` alone. -/
theorem walk_foldl (chunkSize : Nat) (file : String) : ∀ (entries : List WalkEntry)
    (acc : Analysis),
    entries.foldl (walk_callback chunkSize file) acc =
      { files_to_upload := acc.files_to_upload ++
          (entries.filter (fun e => !e.info.IsDir && decide (chunkSize ≤ e.info.Size))).map
            (walkedUnit file),
        files_to_zip := acc.files_to_zip ++
          (entries.filter (fun e => !e.info.IsDir && decide (e.info.Size < chunkSize))).map
            (walkedUnit file),
        files_only := acc.files_only } := by
  intro entries
  induction entries with
  | nil => intro acc; simp
  | cons e es ih =>
    intro acc
    rw [List.foldl_cons, ih]
    unfold walk_callback
    cases hd : e.info.IsDir with
    | true => simp [hd]
    | false =>
      by_cases hs : e.info.Size < chunkSize
      · have hs' : ¬ chunkSize ≤ e.info.Size := by omega
        simp [hd, hs, hs', walkedUnit]
      · have hs' : chunkSize ≤ e.info.Size := by omega
        simp [hd, hs, hs', walkedUnit]

/-- One input path adds its direct units and its zip candidates to the lists. -/
theorem analyse_step_eq (fs : Fs) (chunkSize : Nat) (acc : Analysis) (file : String) :
    (analyse_step fs chunkSize acc file).files_to_upload =
      acc.files_to_upload ++ directOf fs chunkSize file ∧
    (analyse_step fs chunkSize acc file).files_to_zip =
      acc.files_to_zip ++ zipOf fs chunkSize file := by
  unfold analyse_step directOf zipOf
  cases hs : fs.stat file with
  | error e => simp
  | ok info =>
    cases hd : info.IsDir with
    | true => simp [hd, walk_foldl]
    | false => simp [hd, topLevelUnit]

theorem analyse_foldl (fs : Fs) (chunkSize : Nat) : ∀ (paths : List String) (acc : Analysis),
    (paths.foldl (analyse_step fs chunkSize) acc).files_to_upload =
      acc.files_to_upload ++ paths.flatMap (directOf fs chunkSize) ∧
    (paths.foldl (analyse_step fs chunkSize) acc).files_to_zip =
      acc.files_to_zip ++ paths.flatMap (zipOf fs chunkSize) := by
  intro paths
  induction paths with
  | nil => intro acc; simp
  | cons p ps ih =>
    intro acc
    obtain ⟨h1, h2⟩ := analyse_step_eq fs chunkSize acc p
    obtain ⟨i1, i2⟩ := ih (analyse_step fs chunkSize acc p)
    rw [List.foldl_cons, i1, i2, h1, h2]
    simp [List.flatMap_cons, List.append_assoc]

/-- The direct units and the zip candidates of one path are, together, the
units discovered by it. -/
theorem directOf_zipOf_perm (fs : Fs) (chunkSize : Nat) (file : String) :
    (directOf fs chunkSize file ++ zipOf fs chunkSize file).Perm (discovered fs file) := by
  unfold directOf zipOf discovered
  cases hs : fs.stat file with
  | error e => simp
  | ok info =>
    cases hd : info.IsDir with
    | false => simp [hd]
    | true =>
      simp only [hd, if_true]
      rw [← List.map_append]
      apply List.Perm.map
      have h1 : (fs.walk file).filter (fun e => !e.info.IsDir && decide (chunkSize ≤ e.info.Size))
          = ((fs.walk file).filter (fun e => !e.info.IsDir)).filter
              (fun e => decide (chunkSize ≤ e.info.Size)) := by
        rw [List.filter_filter]
        congr 1
        funext e
        exact Bool.and_comm _ _
      have h2 : (fs.walk file).filter (fun e => !e.info.IsDir && decide (e.info.Size < chunkSize))
          = ((fs.walk file).filter (fun e => !e.info.IsDir)).filter
              (fun e => !decide (chunkSize ≤ e.info.Size)) := by
        rw [List.filter_filter]
        congr 1
        funext e
        rw [Bool.and_comm]
        congr 1
        by_cases h : e.info.Size < chunkSize
        · have : ¬ chunkSize ≤ e.info.Size := by omega
          simp [h, this]
        · have : chunkSize ≤ e.info.Size := by omega
          simp [h, this]
      rw [h1, h2]
      exact List.filter_append_perm _ _

/-- C8: `analyse_paths` puts into the direct-upload list, path by path, every
file of at least `UPLOAD_CHUCK_SIZE` bytes found under an input directory and
every input path that is itself a file (whatever its size, with its base name
as target path), and into the zip-candidate list every smaller file found under
an input directory; an input path that does not exist yields no unit. -/
theorem C8_routing (fs : Fs) (chunkSize : Nat) (paths : List String) :
    (analyse_paths fs chunkSize paths).files_to_upload =
      paths.flatMap (directOf fs chunkSize) ∧
    (analyse_paths fs chunkSize paths).files_to_zip = paths.flatMap (zipOf fs chunkSize) ∧
    (∀ p info, fs.stat p = .ok info → info.IsDir = false →
      directOf fs chunkSize p = [topLevelUnit fs p] ∧ (topLevelUnit fs p).TargetPath = fs.base p ∧
      zipOf fs chunkSize p = []) ∧
    (∀ p info, fs.stat p = .ok info → info.IsDir = true →
      directOf fs chunkSize p =
        ((fs.walk p).filter (fun e => !e.info.IsDir && decide (chunkSize ≤ e.info.Size))).map
          (walkedUnit p) ∧
      zipOf fs chunkSize p =
        ((fs.walk p).filter (fun e => !e.info.IsDir && decide (e.info.Size < chunkSize))).map
          (walkedUnit p)) ∧
    (∀ p e, fs.stat p = .error e → directOf fs chunkSize p = [] ∧ zipOf fs chunkSize p = []) := by
  obtain ⟨h1, h2⟩ := analyse_foldl fs chunkSize paths
    { files_to_upload := [], files_to_zip := [], files_only := true }
  refine ⟨by simpa [analyse_paths] using h1, by simpa [analyse_paths] using h2, ?_, ?_, ?_⟩
  · intro p info hs hd
    simp [directOf, zipOf, hs, hd, topLevelUnit]
  · intro p info hs hd
    simp [directOf, zipOf, hs, hd]
  · intro p e hs
    simp [directOf, zipOf, hs]

/-- C8, on a sample file system: a directory with a small and a large file, a
missing path, and a single small file. -/
theorem C8_routing_witness :
    analyse_paths sampleFs 100 ["/data", "/missing", "/x/f.bin"] =
      { files_to_upload :=
          [ { SourcePath := "/data/s/b", TargetPath := "s/b", Delete := false, Imported := false },
            { SourcePath := "/x/f.bin", TargetPath := "f.bin", Delete := false,
              Imported := false } ],
        files_to_zip :=
          [ { SourcePath := "/data/a", TargetPath := "a", Delete := false, Imported := false } ],
        files_only := false } ∧
    (directOf sampleFs 100 "/x/f.bin" = [topLevelUnit sampleFs "/x/f.bin"] ∧
      (topLevelUnit sampleFs "/x/f.bin").TargetPath = sampleFs.base "/x/f.bin" ∧
      zipOf sampleFs 100 "/x/f.bin" = []) ∧
    (directOf sampleFs 100 "/missing" = [] ∧ zipOf sampleFs 100 "/missing" = []) :=
  ⟨by decide,
   (C8_routing sampleFs 100 []).2.2.1 "/x/f.bin" { IsDir := false, Size := 7 }
     rfl rfl,
   (C8_routing sampleFs 100 []).2.2.2.2 "/missing" "no such file" rfl⟩

/-! ## `zip_and_upload` -/

/-- What the inner loop does to the files still to be bundled: it takes a run
from their front; it takes at least one file unless it fails; all sizes reported
before its last addition were within the limit; and when it stops before the
end of the list, the size reported after its last addition was above the limit. -/
theorem zip_fill_spec (env : ZipEnv) (maxZipSize : Nat) :
    ∀ (rest content : List UploadFile), ∃ taken remaining,
      rest = taken ++ remaining ∧
      (zip_fill env maxZipSize rest content).content = content ++ taken ∧
      ((zip_fill env maxZipSize rest content).err = none → rest ≠ [] → taken ≠ []) ∧
      ((∀ f ∈ rest, env.addErr f = none) → (zip_fill env maxZipSize rest content).err = none) ∧
      (∀ n, content.length < n → n < (content ++ taken).length →
        ∀ s, env.zipStat ((content ++ taken).take n) = .ok s → s ≤ maxZipSize) ∧
      ((zip_fill env maxZipSize rest content).err = none → remaining ≠ [] →
        ∃ s, env.zipStat (content ++ taken) = .ok s ∧ maxZipSize < s) := by
  intro rest
  induction rest with
  | nil =>
    intro content
    exact ⟨[], [], rfl, by simp [zip_fill], by simp, by simp [zip_fill],
      by intro n h1 h2; simp at h2; omega, by simp⟩
  | cons f rest ih =>
    intro content
    cases ha : env.addErr f with
    | some e =>
      refine ⟨[], f :: rest, rfl, by simp [zip_fill, ha], by simp [zip_fill, ha], ?_,
        by intro n h1 h2; simp at h2; omega, by simp [zip_fill, ha]⟩
      intro hall
      have := hall f (List.mem_cons_self _ _)
      rw [ha] at this; cases this
    | none =>
      obtain ⟨taken, remaining, h1, h2, h3, h4, h5, h6⟩ := ih (content ++ [f])
      have hrec : ∀ n, content.length < n → n < (content ++ f :: taken).length →
          (∀ s, env.zipStat (content ++ [f]) = .ok s → s ≤ maxZipSize) →
          ∀ s, env.zipStat ((content ++ f :: taken).take n) = .ok s → s ≤ maxZipSize := by
        intro n hn1 hn2 hfirst s hs
        have eq : content ++ f :: taken = (content ++ [f]) ++ taken := by simp
        by_cases hn : n = content.length + 1
        · have : (content ++ f :: taken).take n = content ++ [f] := by
            rw [eq, hn]
            have hl : (content ++ [f]).length = content.length + 1 := by simp
            rw [← hl, List.take_left]
          rw [this] at hs
          exact hfirst s hs
        · rw [eq] at hs hn2
          exact h5 n (by simp; omega) hn2 s hs
      cases hst : env.zipStat (content ++ [f]) with
      | ok size =>
        by_cases hsz : size > maxZipSize
        · refine ⟨[f], rest, rfl, by simp [zip_fill, ha, hst, hsz],
            by simp, by simp [zip_fill, ha, hst, hsz], ?_, ?_⟩
          · intro n hn1 hn2; simp at hn2; omega
          · intro _ _; exact ⟨size, hst, hsz⟩
        · have hstep : zip_fill env maxZipSize (f :: rest) content =
              zip_fill env maxZipSize rest (content ++ [f]) := by
            rw [zip_fill]; simp [ha, hst, hsz]
          refine ⟨f :: taken, remaining, by simp [h1], by rw [hstep, h2]; simp,
            by simp, ?_, ?_, ?_⟩
          · intro hall
            rw [hstep]
            exact h4 (fun g hg => hall g (List.mem_cons_of_mem _ hg))
          · intro n hn1 hn2
            apply hrec n hn1 hn2
            intro s hs
            rw [hst] at hs
            injection hs with hs
            omega
          · intro he hr
            rw [hstep] at he
            have eq : content ++ f :: taken = (content ++ [f]) ++ taken := by simp
            rw [eq]
            exact h6 he hr
      | error e =>
        have hstep : zip_fill env maxZipSize (f :: rest) content =
            zip_fill env maxZipSize rest (content ++ [f]) := by
          rw [zip_fill]; simp [ha, hst]
        refine ⟨f :: taken, remaining, by simp [h1], by rw [hstep, h2]; simp,
          by simp, ?_, ?_, ?_⟩
        · intro hall
          rw [hstep]
          exact h4 (fun g hg => hall g (List.mem_cons_of_mem _ hg))
        · intro n hn1 hn2
          apply hrec n hn1 hn2
          intro s hs
          rw [hst] at hs
          cases hs
        · intro he hr
          rw [hstep] at he
          have eq : content ++ f :: taken = (content ++ [f]) ++ taken := by simp
          rw [eq]
          exact h6 he hr

/-- The outer loop emits nothing once all files are bundled. -/
theorem zip_loop_done (env : ZipEnv) (maxZipSize : Nat) (temp_dir : String)
    (files : List UploadFile) (fuel index : Nat) (h : files.length ≤ index) :
    (zip_loop env maxZipSize temp_dir files fuel index).emitted = [] := by
  cases fuel with
  | zero => rfl
  | succ f =>
    rw [zip_loop]
    have : ¬ index < files.length := by omega
    simp [this]

/-- The archives emitted from `index` on hold consecutive runs of the files
from `index` on; with enough iterations allowed the loop ends by itself, and it
ends with `nil` exactly when nothing failed, having bundled every file. -/
theorem zip_loop_spec (env : ZipEnv) (maxZipSize : Nat) (temp_dir : String)
    (files : List UploadFile) :
    ∀ fuel index, index ≤ files.length → files.length < index + fuel →
      (∃ remaining, files.drop index =
          ((zip_loop env maxZipSize temp_dir files fuel index).emitted.map
            Archive.content).flatten ++ remaining ∧
        ((zip_loop env maxZipSize temp_dir files fuel index).outcome = .returned none →
          remaining = [])) ∧
      (zip_loop env maxZipSize temp_dir files fuel index).outcome ≠ .pending ∧
      ((∀ i, env.createErr i = none) → (∀ f ∈ files, env.addErr f = none) →
        (zip_loop env maxZipSize temp_dir files fuel index).outcome = .returned none) ∧
      (∀ a ∈ (zip_loop env maxZipSize temp_dir files fuel index).emitted,
        a.content ≠ [] ∧ a.unit.Delete = true ∧
        ∀ n, 0 < n → n < a.content.length →
          ∀ s, env.zipStat (a.content.take n) = .ok s → s ≤ maxZipSize) ∧
      (∀ a ∈ (zip_loop env maxZipSize temp_dir files fuel index).emitted.dropLast,
        closedByOverflow env maxZipSize a) := by
  intro fuel
  induction fuel with
  | zero => intro index h1 h2; omega
  | succ fuel ih =>
    intro index hindex hfuel
    rw [zip_loop]
    by_cases hidx : index < files.length
    · simp only [hidx, if_true]
      cases hc : env.createErr index with
      | some e =>
        refine ⟨⟨files.drop index, by simp, by simp⟩, by simp, ?_, by simp, by simp⟩
        intro hcr; rw [hcr index] at hc; cases hc
      | none =>
        obtain ⟨taken, remaining, f1, f2, f3, f4, f5, f6⟩ :=
          zip_fill_spec env maxZipSize (files.drop index) []
        simp only [List.nil_append] at f2 f5 f6
        cases he : (zip_fill env maxZipSize (files.drop index) []).err with
        | some e =>
          refine ⟨⟨files.drop index, by simp, by simp⟩, by simp, ?_, by simp, by simp⟩
          intro _ hadd
          have := f4 (fun f hf => hadd f (List.mem_of_mem_drop hf))
          rw [he] at this; cases this
        | none =>
          have hne : files.drop index ≠ [] := by
            intro h0
            have := congrArg List.length h0
            simp at this; omega
          have htaken : taken ≠ [] := f3 he hne
          have hlen : 0 < taken.length := List.length_pos.mpr htaken
          have hle : index + taken.length ≤ files.length := by
            have := congrArg List.length f1
            simp at this; omega
          obtain ⟨⟨rem', r1, r2⟩, i2, i3, i4, i5⟩ := ih (index + taken.length) hle (by omega)
          have hdrop : files.drop (index + taken.length) = remaining := by
            rw [← List.drop_drop, f1, List.drop_left]
          simp only [f2]
          refine ⟨⟨rem', ?_, ?_⟩, ?_, ?_, ?_, ?_⟩
          · simp only [List.map_cons, List.flatten_cons, List.append_assoc]
            rw [← r1, hdrop, f1]
          · intro ho; exact r2 ho
          · exact i2
          · intro hcr hadd; exact i3 hcr hadd
          · intro a ha
            rcases List.mem_cons.mp ha with h | h
            · subst h
              refine ⟨htaken, rfl, ?_⟩
              intro n hn1 hn2 s hs
              exact f5 n hn1 hn2 s hs
            · exact i4 a h
          · intro a ha
            cases hem : (zip_loop env maxZipSize temp_dir files fuel
                (index + taken.length)).emitted with
            | nil => rw [hem] at ha; simp at ha
            | cons b bs =>
              rw [hem, List.dropLast_cons₂] at ha
              rcases List.mem_cons.mp ha with h | h
              · subst h
                have hrem : remaining ≠ [] := by
                  intro h0
                  have hfull : files.length ≤ index + taken.length := by
                    have := congrArg List.length hdrop
                    rw [h0] at this
                    simp at this; omega
                  have := zip_loop_done env maxZipSize temp_dir files fuel _ hfull
                  rw [hem] at this; cases this
                exact f6 he hrem
              · exact i5 a (by rw [hem]; exact h)
    · simp only [hidx, if_false]
      refine ⟨⟨[], ?_, by simp⟩, by simp, by simp, by simp, by simp⟩
      simp
      omega

/-- What the size check of `zip_and_upload` does ensure: every archive it emits
holds at least one file; each size `os.Stat` reported for it before its last
file was added was at most `MAX_ZIP_SIZE`; and every archive but the last
emitted one was closed because the size reported right after its own last file
was added exceeded `MAX_ZIP_SIZE`. -/
theorem zip_reported_sizes_within_limit (env : ZipEnv) (maxZipSize : Nat) (temp_dir : String)
    (files_to_zip : List UploadFile) :
    (∀ a ∈ (zip_and_upload env maxZipSize temp_dir files_to_zip).emitted,
      a.content ≠ [] ∧
      ∀ n, 0 < n → n < a.content.length →
        ∀ s, env.zipStat (a.content.take n) = .ok s → s ≤ maxZipSize) ∧
    (∀ a ∈ (zip_and_upload env maxZipSize temp_dir files_to_zip).emitted.dropLast,
      ∃ s, env.zipStat a.content = .ok s ∧ maxZipSize < s) := by
  obtain ⟨-, -, -, h4, h5⟩ := zip_loop_spec env maxZipSize temp_dir files_to_zip
    (files_to_zip.length + 1) 0 (by omega) (by omega)
  exact ⟨fun a ha => ⟨(h4 a ha).1, (h4 a ha).2.2⟩, h5⟩

/-- C6 (the code departs from the claim): with a maximum of 25 bytes and seven
small files, whose archive stays below the 4096 bytes the zip writer buffers,
`os.Stat` reports 0 bytes after every addition, the size check never fires, and
`zip_and_upload` emits a single archive with all seven files. An archive with
one entry already has more than 25 bytes: the archive exceeded the maximum
after its first file, six files before its last file was added. -/
theorem C6_stat_lags_archive :
    (zip_and_upload lazyStatZipEnv 25 "/tmp" sevenFiles).emitted.map Archive.content =
      [sevenFiles] ∧
    (zip_and_upload lazyStatZipEnv 25 "/tmp" sevenFiles).outcome = .returned none ∧
    25 < zipMinSize (sevenFiles.take 1) ∧
    25 < zipMinSize (sevenFiles.take 6) := by
  decide

/-- C7: no discovered file is dropped or duplicated. The two lists returned by
`analyse_paths` hold, together, exactly the units discovered under the input
paths, each once. When no archive and no file to be added fails,
`zip_and_upload` returns `nil`, every archive it emitted is non-empty, and the
contents of the archives, glued together in emission order, are the list of zip
candidates: the archives are consecutive runs of the list. -/
theorem C7_no_file_lost (fs : Fs) (chunkSize : Nat) (paths : List String)
    (env : ZipEnv) (maxZipSize : Nat) (temp_dir : String) (files_to_zip : List UploadFile)
    (hcreate : ∀ i, env.createErr i = none) (hadd : ∀ f ∈ files_to_zip, env.addErr f = none) :
    ((analyse_paths fs chunkSize paths).files_to_upload ++
      (analyse_paths fs chunkSize paths).files_to_zip).Perm (paths.flatMap (discovered fs)) ∧
    (zip_and_upload env maxZipSize temp_dir files_to_zip).outcome = .returned none ∧
    (∀ a ∈ (zip_and_upload env maxZipSize temp_dir files_to_zip).emitted, a.content ≠ []) ∧
    ((zip_and_upload env maxZipSize temp_dir files_to_zip).emitted.map
      Archive.content).flatten = files_to_zip := by
  obtain ⟨⟨remaining, h1, h1'⟩, -, h3, h4, -⟩ := zip_loop_spec env maxZipSize temp_dir
    files_to_zip (files_to_zip.length + 1) 0 (by omega) (by omega)
  have hout := h3 hcreate hadd
  obtain ⟨a1, a2⟩ := analyse_foldl fs chunkSize paths
    { files_to_upload := [], files_to_zip := [], files_only := true }
  refine ⟨?_, hout, fun a ha => (h4 a ha).1, ?_⟩
  · have e1 : (analyse_paths fs chunkSize paths).files_to_upload =
        paths.flatMap (directOf fs chunkSize) := by simpa [analyse_paths] using a1
    have e2 : (analyse_paths fs chunkSize paths).files_to_zip =
        paths.flatMap (zipOf fs chunkSize) := by simpa [analyse_paths] using a2
    rw [e1, e2]
    exact (List.flatMap_append_perm paths _ _).trans
      (List.Perm.flatMap_left paths (fun p _ => directOf_zipOf_perm fs chunkSize p))
  · have := h1' hout
    rw [this, List.append_nil, List.drop_zero] at h1
    exact h1.symm

/-- C7, on the sample directory and on seven small files bundled with a limit
of 25 bytes. -/
theorem C7_no_file_lost_witness :
    ((analyse_paths sampleFs 100 ["/data", "/missing", "/x/f.bin"]).files_to_upload ++
      (analyse_paths sampleFs 100 ["/data", "/missing", "/x/f.bin"]).files_to_zip).Perm
        (["/data", "/missing", "/x/f.bin"].flatMap (discovered sampleFs)) ∧
    ((zip_and_upload sampleZipEnv 25 "/tmp"
        [smallUnit "a", smallUnit "b", smallUnit "c", smallUnit "d", smallUnit "e",
         smallUnit "f", smallUnit "g"]).emitted.map Archive.content =
      [[smallUnit "a", smallUnit "b", smallUnit "c"],
       [smallUnit "d", smallUnit "e", smallUnit "f"], [smallUnit "g"]]) :=
  ⟨(C7_no_file_lost sampleFs 100 ["/data", "/missing", "/x/f.bin"] sampleZipEnv 25 "/tmp"
      [smallUnit "a", smallUnit "b", smallUnit "c", smallUnit "d", smallUnit "e",
       smallUnit "f", smallUnit "g"] (fun _ => rfl) (fun _ _ => rfl)).1,
   by decide⟩

/-! ## `update_import_state` -/

/-- C3 (the code departs from the claim): `update_import_state` never changes
the unit list of its caller. For the unit `a.dat`, whose recomputed SHA-1 hash
equals the hash the server reports for `a.dat`, the copy held by the loop
variable is marked imported and `IMPORTED:` is logged, while the unit in the
list keeps `Imported = false`. -/
theorem C3_imported_flag_not_stored (env : ImportEnv) (files : List UploadFile) :
    (update_import_state env files).files = files ∧
    (update_import_state sampleImportEnv [sampleUnit]).log =
      [{ status := "IMPORTED:", file := { sampleUnit with Imported := true } }] ∧
    (update_import_state sampleImportEnv [sampleUnit]).files =
      [{ SourcePath := "/data/a.dat", TargetPath := "a.dat", Delete := false,
         Imported := false }] := by
  refine ⟨?_, by decide, by decide⟩
  unfold update_import_state
  cases env.result with
  | transport e => rfl
  | response status body =>
    by_cases hs : status ≠ 200
    · simp [hs]
    · simp only [hs, if_false]
      cases body with
      | error e => rfl
      | ok data =>
        simp only
        split <;> rfl

/-! ## The progress loop of `upload` -/

/-- After a reply that keeps the loop polling, the loop sleeps and polls again. -/
theorem progress_loop_continue (env : WaitEnv) (allFiles : List UploadFile) (verify : Bool)
    (timeout : Int) (htimeout : timeout < 0) (fuel k : Nat)
    (h : keepsPolling verify (env.progressReply k)) :
    progress_loop env allFiles verify timeout (fuel + 1) k =
      progress_loop env allFiles verify timeout fuel (k + 1) := by
  obtain ⟨d, hd, hne, hmode⟩ := h
  rw [progress_loop]
  simp only [htimeout, true_or, if_true, hd, progress]
  have h200 : ¬ ((200 : Nat) ≠ 200) := by simp
  simp only [h200, if_false]
  cases verify with
  | true =>
    simp only [if_true] at hmode
    by_cases h45 : d.State = 5 ∨ d.State = 4
    · simp [h45, hmode]
    · simp [h45, hne]
  | false =>
    simp only [Bool.false_eq_true, if_false] at hmode
    have h45 : ¬ (d.State = 5 ∨ d.State = 4) := by
      rintro (h | h)
      · exact hmode.2 h
      · exact hmode.1 h
    simp [h45, hne]

/-- The loop passes over any number of replies that keep it polling. -/
theorem progress_loop_skip (env : WaitEnv) (allFiles : List UploadFile) (verify : Bool)
    (timeout : Int) (htimeout : timeout < 0) (fuel : Nat) :
    ∀ n k, (∀ j, k ≤ j → j < k + n → keepsPolling verify (env.progressReply j)) →
      progress_loop env allFiles verify timeout (n + fuel) k =
        progress_loop env allFiles verify timeout fuel (k + n) := by
  intro n
  induction n with
  | zero => intro k _; simp
  | succ n ih =>
    intro k h
    have e : n + 1 + fuel = (n + fuel) + 1 := by omega
    rw [e, progress_loop_continue env allFiles verify timeout htimeout (n + fuel) k
      (h k le_rfl (by omega)), ih (k + 1) (fun j h1 h2 => h j (by omega) (by omega))]
    congr 1
    omega

/-- C10: in the progress loop of `upload` with a negative timeout, let poll `n`
be answered with status 200 and the progress `d`.
Without verify, a state 4 or 5 makes the loop return `(d, nil)` at this poll,
and `upload` returns so after `n + 1` polls when the earlier replies kept it
polling. With verify, state 4, or state 5 with a progress other than 100, makes
the loop sleep and poll again; state 5 with progress 100 ends it at this poll
(with `(d, nil)` when `update_import_state` reports no error), so `upload`
returns after `n + 1` polls when the earlier replies kept it polling. -/
theorem C10_progress_loop (env : WaitEnv) (allFiles : List UploadFile) (wait : Bool)
    (timeout : Int) (htimeout : timeout < 0) (n : Nat) (d : UploadProgress)
    (hreply : env.progressReply n = .response 200 d) :
    ((d.State = 4 ∨ d.State = 5) →
      (∀ fuel, progress_loop env allFiles false timeout (fuel + 1) n =
        some { data := d, err := none, polls := n + 1 }) ∧
      (env.completeErr = none →
        (∀ k < n, keepsPolling false (env.progressReply k)) →
        ∀ fuel, upload_wait env allFiles true false timeout (n + (fuel + 1)) =
          some { data := d, err := none, polls := n + 1 })) ∧
    ((d.State = 4 ∨ (d.State = 5 ∧ d.Progress ≠ 100)) →
      ∀ fuel, progress_loop env allFiles true timeout (fuel + 1) n =
        progress_loop env allFiles true timeout fuel (n + 1)) ∧
    ((d.State = 5 ∧ d.Progress = 100) →
      (update_import_state env.importEnv allFiles).err = none →
      (∀ fuel, progress_loop env allFiles true timeout (fuel + 1) n =
        some { data := d, err := none, polls := n + 1 }) ∧
      (env.completeErr = none →
        (∀ k < n, keepsPolling true (env.progressReply k)) →
        ∀ fuel, upload_wait env allFiles wait true timeout (n + (fuel + 1)) =
          some { data := d, err := none, polls := n + 1 })) := by
  have h200 : ¬ ((200 : Nat) ≠ 200) := by simp
  refine ⟨?_, ?_, ?_⟩
  · intro hstate
    have h45 : d.State = 5 ∨ d.State = 4 := hstate.symm
    have hret : ∀ fuel, progress_loop env allFiles false timeout (fuel + 1) n =
        some { data := d, err := none, polls := n + 1 } := by
      intro fuel
      rw [progress_loop]
      simp only [htimeout, true_or, if_true, hreply, progress, h200, if_false]
      simp [h45]
    refine ⟨hret, ?_⟩
    intro hc hearlier fuel
    simp only [upload_wait, hc, Bool.or_false, if_true]
    rw [progress_loop_skip env allFiles false timeout htimeout (fuel + 1) n 0
      (fun j _ h2 => hearlier j (by omega))]
    simpa using hret fuel
  · intro hstate fuel
    apply progress_loop_continue env allFiles true timeout htimeout fuel n
    refine ⟨d, hreply, ?_, ?_⟩
    · rcases hstate with h | ⟨h, -⟩ <;> rw [h] <;> decide
    · simp only [if_true]
      rintro ⟨h5, h100⟩
      rcases hstate with h | ⟨-, h⟩
      · rw [h] at h5; exact absurd h5 (by decide)
      · exact h h100
  · intro hstate herr
    have h45 : d.State = 5 ∨ d.State = 4 := Or.inl hstate.1
    have hret : ∀ fuel, progress_loop env allFiles true timeout (fuel + 1) n =
        some { data := d, err := none, polls := n + 1 } := by
      intro fuel
      rw [progress_loop]
      simp only [htimeout, true_or, if_true, hreply, progress, h200, if_false]
      simp [h45, hstate, herr]
    refine ⟨hret, ?_⟩
    intro hc hearlier fuel
    simp only [upload_wait, hc, Bool.or_true, if_true]
    rw [progress_loop_skip env allFiles true timeout htimeout (fuel + 1) n 0
      (fun j _ h2 => hearlier j (by omega))]
    simpa using hret fuel

/-- C10, on scenario C (states 0, 1, 4 without verify: success at the third
poll) and on an import that reaches state 5 at 100 percent at its third poll
(with verify). -/
theorem C10_progress_loop_witness :
    upload_wait (sampleWaitEnv scenarioC) [] true false (-1) (2 + (0 + 1)) =
      some { data := { State := 4, Progress := 80,
                       Tasks := { Count := 0, Finished := 0, Error := 0, Ids := [] } },
             err := none, polls := 3 } ∧
    progress_loop (sampleWaitEnv slowImport) [] true (-1) (3 + 1) 0 =
      progress_loop (sampleWaitEnv slowImport) [] true (-1) 3 (0 + 1) ∧
    upload_wait (sampleWaitEnv slowImport) [] false true (-1) (2 + (0 + 1)) =
      some { data := { State := 5, Progress := 100,
                       Tasks := { Count := 0, Finished := 0, Error := 0, Ids := [] } },
             err := none, polls := 3 } :=
  ⟨((C10_progress_loop (sampleWaitEnv scenarioC) [] true (-1) (by decide) 2
        { State := 4, Progress := 80,
          Tasks := { Count := 0, Finished := 0, Error := 0, Ids := [] } } rfl).1
      (Or.inl rfl)).2 rfl
      (fun k hk => by
        interval_cases k
        · exact ⟨_, rfl, by decide, by decide⟩
        · exact ⟨_, rfl, by decide, by decide⟩) 0,
   (C10_progress_loop (sampleWaitEnv slowImport) [] false (-1) (by decide) 0
      { State := 4, Progress := 30,
        Tasks := { Count := 0, Finished := 0, Error := 0, Ids := [] } } rfl).2.1
      (Or.inl rfl) 3,
   ((C10_progress_loop (sampleWaitEnv slowImport) [] false (-1) (by decide) 2
        { State := 5, Progress := 100,
          Tasks := { Count := 0, Finished := 0, Error := 0, Ids := [] } } rfl).2.2
      ⟨rfl, rfl⟩ rfl).2 rfl
      (fun k hk => by
        interval_cases k
        · exact ⟨_, rfl, by decide, by decide⟩
        · exact ⟨_, rfl, by decide, by decide⟩) 0⟩

/-! ## The progress loop: hard failure and timeout -/

/-- After a reply that keeps the loop polling, the loop sleeps and polls again,
as long as the caller budget is not used up. -/
theorem progress_loop_continue_cond (env : WaitEnv) (allFiles : List UploadFile) (verify : Bool)
    (timeout : Int) (fuel k : Nat) (hcond : timeout < 0 ∨ env.inTime k = true)
    (h : keepsPolling verify (env.progressReply k)) :
    progress_loop env allFiles verify timeout (fuel + 1) k =
      progress_loop env allFiles verify timeout fuel (k + 1) := by
  obtain ⟨d, hd, hne, hmode⟩ := h
  rw [progress_loop]
  simp only [hcond, if_true, hd, progress]
  have h200 : ¬ ((200 : Nat) ≠ 200) := by simp
  simp only [h200, if_false]
  cases verify with
  | true =>
    simp only [if_true] at hmode
    by_cases h45 : d.State = 5 ∨ d.State = 4
    · simp [h45, hmode]
    · simp [h45, hne]
  | false =>
    simp only [Bool.false_eq_true, if_false] at hmode
    have h45 : ¬ (d.State = 5 ∨ d.State = 4) := by
      rintro (h | h)
      · exact hmode.2 h
      · exact hmode.1 h
    simp [h45, hne]

theorem progress_loop_skip_cond (env : WaitEnv) (allFiles : List UploadFile) (verify : Bool)
    (timeout : Int) (fuel : Nat) :
    ∀ n k, (∀ j, k ≤ j → j < k + n → (timeout < 0 ∨ env.inTime j = true) ∧
        keepsPolling verify (env.progressReply j)) →
      progress_loop env allFiles verify timeout (n + fuel) k =
        progress_loop env allFiles verify timeout fuel (k + n) := by
  intro n
  induction n with
  | zero => intro k _; simp
  | succ n ih =>
    intro k h
    have e : n + 1 + fuel = (n + fuel) + 1 := by omega
    rw [e, progress_loop_continue_cond env allFiles verify timeout (n + fuel) k
      (h k le_rfl (by omega)).1 (h k le_rfl (by omega)).2,
      ih (k + 1) (fun j h1 h2 => h j (by omega) (by omega))]
    congr 1
    omega

/-- C11: in the progress loop of `upload`, with or without verify, a poll that
is answered with state -1 makes the loop return the error "the import failed"
right at this poll: the result counts `n + 1` queries, none is issued after it.
`upload` returns so when the earlier replies kept it polling. The error differs
from the one returned when the caller budget is used up, "upload progress
timeout". -/
theorem C11_hard_failure (env : WaitEnv) (allFiles : List UploadFile) (wait verify : Bool)
    (timeout : Int) (n : Nat) (d : UploadProgress)
    (hreply : env.progressReply n = .response 200 d) (hstate : d.State = -1)
    (hcond : ∀ k ≤ n, timeout < 0 ∨ env.inTime k = true) :
    (∀ fuel, progress_loop env allFiles verify timeout (fuel + 1) n =
      some { data := d, err := some "the import failed", polls := n + 1 }) ∧
    (env.completeErr = none → (wait || verify) = true →
      (∀ k < n, keepsPolling verify (env.progressReply k)) →
      ∀ fuel, upload_wait env allFiles wait verify timeout (n + (fuel + 1)) =
        some { data := d, err := some "the import failed", polls := n + 1 }) ∧
    (∀ k fuel, ¬ timeout < 0 → env.inTime k = false →
      progress_loop env allFiles verify timeout (fuel + 1) k =
        some { data := UploadProgress.zero, err := some "upload progress timeout", polls := k }) ∧
    ("the import failed" : GoError) ≠ "upload progress timeout" := by
  have h200 : ¬ ((200 : Nat) ≠ 200) := by simp
  have hret : ∀ fuel, progress_loop env allFiles verify timeout (fuel + 1) n =
      some { data := d, err := some "the import failed", polls := n + 1 } := by
    intro fuel
    rw [progress_loop]
    simp only [hcond n le_rfl, if_true, hreply, progress, h200, if_false]
    have h45 : ¬ (d.State = 5 ∨ d.State = 4) := by
      rw [hstate]; decide
    simp [h45, hstate]
  refine ⟨hret, ?_, ?_, by decide⟩
  · intro hc hw hearlier fuel
    simp only [upload_wait, hc, hw, if_true]
    rw [progress_loop_skip_cond env allFiles verify timeout (fuel + 1) n 0
      (fun j _ h2 => ⟨hcond j (by omega), hearlier j (by omega)⟩)]
    simpa using hret fuel
  · intro k fuel ht hin
    rw [progress_loop]
    have : ¬ (timeout < 0 ∨ env.inTime k = true) := by
      rintro (h | h)
      · exact ht h
      · rw [hin] at h; cases h
    simp [this]

/-- C11, on an import that reports state 0 and then state -1, with a budget of
ten seconds that lasts for three evaluations of the loop condition. -/
theorem C11_hard_failure_witness :
    upload_wait (budgetEnv failingImport) [] true true 10 (1 + (0 + 1)) =
      some { data := { State := -1, Progress := 10,
                       Tasks := { Count := 0, Finished := 0, Error := 0, Ids := [] } },
             err := some "the import failed", polls := 2 } ∧
    progress_loop (budgetEnv failingImport) [] true 10 (0 + 1) 3 =
      some { data := UploadProgress.zero, err := some "upload progress timeout", polls := 3 } :=
  ⟨(C11_hard_failure (budgetEnv failingImport) [] true true 10 1
      { State := -1, Progress := 10,
        Tasks := { Count := 0, Finished := 0, Error := 0, Ids := [] } } rfl rfl
      (fun k hk => by
        interval_cases k
        · exact Or.inr rfl
        · exact Or.inr rfl)).2.1 rfl rfl
      (fun k hk => by
        interval_cases k
        exact ⟨_, rfl, by decide, by decide⟩) 0,
   (C11_hard_failure (budgetEnv failingImport) [] true true 10 1
      { State := -1, Progress := 10,
        Tasks := { Count := 0, Finished := 0, Error := 0, Ids := [] } } rfl rfl
      (fun k hk => by
        interval_cases k
        · exact Or.inr rfl
        · exact Or.inr rfl)).2.2.1 3 0 (by decide) rfl⟩

/-! ## `upload_worker` -/

/-- A call of `upload_file` that gets the file size and opens the file either
returns or is still in `verifyHash`; it does not terminate the process. -/
theorem upload_file_not_fatal (env : UploadEnv) (chunkSize : Nat) (file : UploadFile)
    (fake : Bool) (fuel S : Nat) (hstat : env.stat = .ok S) (hopen : env.openErr = none) :
    (∃ err, (upload_file env chunkSize file fake fuel).outcome = .returned err) ∨
    (upload_file env chunkSize file fake fuel).outcome = .pending := by
  simp only [upload_file, hstat, hopen]
  split
  · exact Or.inl ⟨_, rfl⟩
  · cases hv : verifyHash file.SourcePath env.urlErr env.hashLocal env.flow fuel with
    | none => exact Or.inr rfl
    | some v =>
      left
      cases he : v.err with
      | some e => exact ⟨some e, by simp [he]⟩
      | none =>
        cases hm : v.isMatch
        · exact ⟨some ("hashes do not match for file " ++ file.SourcePath), by simp [he, hm]⟩
        · exact ⟨none, by simp [he, hm]⟩

/-- A worker whose calls all return has called `upload_file` for every unit. -/
theorem upload_worker_all (chunkSize : Nat) (fake : Bool) (fuel : Nat) :
    ∀ queue : List (UploadFile × UploadEnv),
      (∀ u ∈ queue, ∃ err, (upload_file u.2 chunkSize u.1 fake fuel).outcome = .returned err) →
      (upload_worker chunkSize fake fuel queue).runs =
        queue.map (fun u => upload_file u.2 chunkSize u.1 fake fuel) ∧
      (upload_worker chunkSize fake fuel queue).outcome = .returned none := by
  intro queue
  induction queue with
  | nil => intro _; exact ⟨rfl, rfl⟩
  | cons u rest ih =>
    intro h
    obtain ⟨file, env⟩ := u
    obtain ⟨err, herr⟩ := h (file, env) (List.mem_cons_self _ _)
    obtain ⟨i1, i2⟩ := ih (fun u hu => h u (List.mem_cons_of_mem _ hu))
    simp only [upload_worker, List.map_cons]
    simp only at herr
    rw [herr]
    exact ⟨by simp [i1], i2⟩

/-- A unit whose source file cannot be stat'ed or opened ends the worker: the
call terminates the process and no later unit is taken from the queue. -/
theorem upload_worker_stops_on_fatal (chunkSize : Nat) (fake : Bool) (fuel : Nat)
    (file : UploadFile) (env : UploadEnv) (rest : List (UploadFile × UploadEnv))
    (h : (∃ e, env.stat = .error e) ∨ (∃ S e, env.stat = .ok S ∧ env.openErr = some e)) :
    (upload_worker chunkSize fake fuel ((file, env) :: rest)).runs =
      [upload_file env chunkSize file fake fuel] ∧
    ∃ msg, (upload_worker chunkSize fake fuel ((file, env) :: rest)).outcome = .fatal msg := by
  have hfatal : ∃ msg, (upload_file env chunkSize file fake fuel).outcome = .fatal msg := by
    rcases h with ⟨e, he⟩ | ⟨S, e, hs, ho⟩
    · exact ⟨"Could not get the file size of " ++ file.SourcePath ++ ": " ++ e,
        by simp [upload_file, he]⟩
    · exact ⟨"Could not open the file " ++ file.SourcePath ++ ": " ++ e,
        by simp [upload_file, hs, ho]⟩
  obtain ⟨msg, hmsg⟩ := hfatal
  have hrun : upload_worker chunkSize fake fuel ((file, env) :: rest) =
      { runs := [upload_file env chunkSize file fake fuel], outcome := .fatal msg } := by
    simp only [upload_worker, hmsg]
  rw [hrun]
  exact ⟨rfl, msg, rfl⟩

/-- C12 (the claim fails): a unit whose source file cannot be stat'ed makes
`upload_file` call `logrus.Fatalf`, which terminates the process: the worker
makes this one call and the unit queued behind it is never processed. -/
theorem C12_fatal_stops_worker :
    (upload_worker 2 false 5 [(sampleFile, missingSourceEnv), (sampleFile, sampleEnv)]).runs.length
      = 1 ∧
    (upload_worker 2 false 5 [(sampleFile, missingSourceEnv), (sampleFile, sampleEnv)]).outcome =
      .fatal "Could not get the file size of /data/a.bin: no such file or directory" := by
  decide

/-- C12 (amended): for every queue of units whose source files can be stat'ed
and opened and whose hash verification comes to an end, the worker calls
`upload_file` for every unit it receives, in order, and ends when the queue is
drained, whatever the calls return: a failed chunk and a hash mismatch make
`upload_file` return, so they do not keep the worker from the later units. -/
theorem C12_worker_isolation (chunkSize : Nat) (fake : Bool) (fuel : Nat)
    (queue : List (UploadFile × UploadEnv))
    (hstat : ∀ u ∈ queue, ∃ S, u.2.stat = .ok S)
    (hopen : ∀ u ∈ queue, u.2.openErr = none)
    (hverify : ∀ u ∈ queue, (upload_file u.2 chunkSize u.1 fake fuel).outcome ≠ .pending) :
    (upload_worker chunkSize fake fuel queue).runs =
      queue.map (fun u => upload_file u.2 chunkSize u.1 fake fuel) ∧
    (upload_worker chunkSize fake fuel queue).outcome = .returned none ∧
    (∀ u ∈ queue, ∃ err,
      (upload_file u.2 chunkSize u.1 fake fuel).outcome = .returned err) := by
  have hret : ∀ u ∈ queue, ∃ err,
      (upload_file u.2 chunkSize u.1 fake fuel).outcome = .returned err := by
    intro u hu
    obtain ⟨S, hS⟩ := hstat u hu
    rcases upload_file_not_fatal u.2 chunkSize u.1 fake fuel S hS (hopen u hu) with h | h
    · exact h
    · exact absurd h (hverify u hu)
  obtain ⟨h1, h2⟩ := upload_worker_all chunkSize fake fuel queue hret
  exact ⟨h1, h2, hret⟩

/-- C12 (amended), on a queue of three units: every chunk of the first is
rejected, the second gets a wrong hash from the server, the third is fine. All
three are processed. -/
theorem C12_worker_isolation_witness :
    (upload_worker 2 false 5
        [(sampleFile, rejectingEnv), (sampleFile, wrongHashEnv), (sampleFile, sampleEnv)]).runs =
      [upload_file rejectingEnv 2 sampleFile false 5, upload_file wrongHashEnv 2 sampleFile false 5,
       upload_file sampleEnv 2 sampleFile false 5] ∧
    (upload_file wrongHashEnv 2 sampleFile false 5).outcome =
      .returned (some "hashes do not match for file /data/a.bin") :=
  ⟨(C12_worker_isolation 2 false 5
      [(sampleFile, rejectingEnv), (sampleFile, wrongHashEnv), (sampleFile, sampleEnv)]
      (fun u hu => by
        simp only [List.mem_cons, List.mem_singleton, List.not_mem_nil, or_false] at hu
        rcases hu with h | h | h <;> subst h <;> exact ⟨5, rfl⟩)
      (fun u hu => by
        simp only [List.mem_cons, List.mem_singleton, List.not_mem_nil, or_false] at hu
        rcases hu with h | h | h <;> subst h <;> rfl)
      (fun u hu => by
        simp only [List.mem_cons, List.mem_singleton, List.not_mem_nil, or_false] at hu
        rcases hu with h | h | h <;> subst h <;> decide)).1,
   by decide⟩

/-! ## `complete` -/

theorem fmt_d_ofNat (m : Nat) : fmt_d (m : Int) = Nat.repr m := rfl

/-- Once the request is built, its body is the map `data`, whatever the reply. -/
theorem complete_body_eq (target_folder_id exam_id series_id task_definition_id : Int)
    (json_import_file : String) (extract_zip_file : Bool) :
    ∀ reply, (complete none reply target_folder_id exam_id series_id task_definition_id
        json_import_file extract_zip_file).body =
      some (complete_data target_folder_id exam_id series_id task_definition_id
        json_import_file extract_zip_file) := by
  intro reply
  unfold complete
  cases reply with
  | error e => rfl
  | ok status =>
    by_cases h : status ≠ 204
    · simp [h]
    · simp [h]

/-- C13: the body built by `complete` has the key "folder" iff
`target_folder_id > 0`, "exam" iff `exam_id > 0`, "series" iff `series_id > 0`,
"task_definition" iff `task_definition_id > 0`, "import_file" iff
`json_import_file` is non-empty and "extract_zip_files" iff the extract flag is
set; an id key carries the decimal rendering of its id, "import_file" the given
text and "extract_zip_files" the text "true"; the body has no other key and no
key twice. -/
theorem C13_complete_body (target_folder_id exam_id series_id task_definition_id : Int)
    (json_import_file : String) (extract_zip_file : Bool) :
    (∀ reply, (complete none reply target_folder_id exam_id series_id task_definition_id
        json_import_file extract_zip_file).body =
      some (complete_data target_folder_id exam_id series_id task_definition_id
        json_import_file extract_zip_file)) ∧
    (∀ v, ("folder", v) ∈ complete_data target_folder_id exam_id series_id task_definition_id
        json_import_file extract_zip_file ↔ (target_folder_id > 0 ∧ v = fmt_d target_folder_id)) ∧
    (∀ v, ("exam", v) ∈ complete_data target_folder_id exam_id series_id task_definition_id
        json_import_file extract_zip_file ↔ (exam_id > 0 ∧ v = fmt_d exam_id)) ∧
    (∀ v, ("series", v) ∈ complete_data target_folder_id exam_id series_id task_definition_id
        json_import_file extract_zip_file ↔ (series_id > 0 ∧ v = fmt_d series_id)) ∧
    (∀ v, ("task_definition", v) ∈ complete_data target_folder_id exam_id series_id
        task_definition_id json_import_file extract_zip_file ↔
        (task_definition_id > 0 ∧ v = fmt_d task_definition_id)) ∧
    (∀ v, ("import_file", v) ∈ complete_data target_folder_id exam_id series_id
        task_definition_id json_import_file extract_zip_file ↔
        (json_import_file ≠ "" ∧ v = json_import_file)) ∧
    (∀ v, ("extract_zip_files", v) ∈ complete_data target_folder_id exam_id series_id
        task_definition_id json_import_file extract_zip_file ↔
        (extract_zip_file = true ∧ v = "true")) ∧
    (∀ p ∈ complete_data target_folder_id exam_id series_id task_definition_id
        json_import_file extract_zip_file, p.1 ∈ completeKeys) ∧
    ((complete_data target_folder_id exam_id series_id task_definition_id
        json_import_file extract_zip_file).map Prod.fst).Nodup ∧
    (∀ m : Nat, fmt_d (m : Int) = Nat.repr m) := by
  refine ⟨complete_body_eq _ _ _ _ _ _, ?_, ?_, ?_, ?_, ?_, ?_, ?_, ?_, fmt_d_ofNat⟩ <;>
    by_cases h1 : json_import_file = "" <;>
    by_cases h2 : target_folder_id > 0 <;>
    by_cases h3 : exam_id > 0 <;>
    by_cases h4 : series_id > 0 <;>
    by_cases h5 : task_definition_id > 0 <;>
    cases extract_zip_file <;>
    simp [complete_data, smap_set, completeKeys, h1, h2, h3, h4, h5]

/-- C13, for target folder 12, no exam, series or task definition, no import
file and the extract flag set: the body is `folder = 12`, `extract_zip_files = true`. -/
theorem C13_complete_body_witness :
    ("folder", "12") ∈ complete_data 12 (-1) (-1) (-1) "" true ∧
    (complete none (.ok 204) 12 (-1) (-1) (-1) "" true).body =
      some [("folder", "12"), ("extract_zip_files", "true")] :=
  ⟨((C13_complete_body 12 (-1) (-1) (-1) "" true).2.1 "12").mpr ⟨by decide, rfl⟩,
   by decide⟩

/-! ## A single archive -/

/-- While no reported size exceeds the limit, the inner loop adds all files. -/
theorem zip_fill_all (env : ZipEnv) (maxZipSize : Nat) :
    ∀ (rest content : List UploadFile),
      (∀ f ∈ rest, env.addErr f = none) →
      (∀ n, content.length < n → n ≤ (content ++ rest).length →
        ∀ s, env.zipStat ((content ++ rest).take n) = .ok s → s ≤ maxZipSize) →
      zip_fill env maxZipSize rest content = { content := content ++ rest, err := none } := by
  intro rest
  induction rest with
  | nil => intro content _ _; simp [zip_fill]
  | cons f rest ih =>
    intro content hadd hsize
    have ha := hadd f (List.mem_cons_self _ _)
    have eq : content ++ f :: rest = (content ++ [f]) ++ rest := by simp
    have htake : (content ++ f :: rest).take (content.length + 1) = content ++ [f] := by
      rw [eq]
      have hl : (content ++ [f]).length = content.length + 1 := by simp
      rw [← hl, List.take_left]
    have hnext := ih (content ++ [f]) (fun g hg => hadd g (List.mem_cons_of_mem _ hg))
      (by
        intro n h1 h2 s hs
        rw [← eq] at h2 hs
        exact hsize n (by simp at h1; omega) h2 s hs)
    rw [zip_fill]
    simp only [ha]
    cases hst : env.zipStat (content ++ [f]) with
    | error e => simp only; rw [hnext, eq]
    | ok size =>
      have hle : size ≤ maxZipSize := by
        apply hsize (content.length + 1) (by omega) (by simp) size
        rw [htake]; exact hst
      have hn : ¬ size > maxZipSize := by omega
      simp only [hn, if_false]
      rw [hnext, eq]

/-- Below a directory whose files are all smaller than the chunk size, every
file becomes a zip candidate and none is uploaded directly. -/
theorem analyse_paths_all_small (fs : Fs) (chunkSize : Nat) (dir : String) (info : FileInfo)
    (hstat : fs.stat dir = .ok info) (hdir : info.IsDir = true)
    (hsmall : ∀ e ∈ fs.walk dir, e.info.IsDir = false → e.info.Size < chunkSize) :
    (analyse_paths fs chunkSize [dir]).files_to_upload = [] ∧
    (analyse_paths fs chunkSize [dir]).files_to_zip = discovered fs dir := by
  obtain ⟨h1, h2⟩ := analyse_foldl fs chunkSize [dir]
    { files_to_upload := [], files_to_zip := [], files_only := true }
  have e1 : (analyse_paths fs chunkSize [dir]).files_to_upload = directOf fs chunkSize dir := by
    simpa [analyse_paths] using h1
  have e2 : (analyse_paths fs chunkSize [dir]).files_to_zip = zipOf fs chunkSize dir := by
    simpa [analyse_paths] using h2
  rw [e1, e2]
  simp only [directOf, zipOf, discovered, hstat, hdir, if_true]
  constructor
  · rw [List.map_eq_nil_iff, List.filter_eq_nil_iff]
    intro e he
    cases hd : e.info.IsDir with
    | true => simp
    | false =>
      have := hsmall e he hd
      have : ¬ chunkSize ≤ e.info.Size := by omega
      simp [this]
  · congr 1
    apply List.filter_congr
    intro e he
    cases hd : e.info.IsDir with
    | true => simp
    | false =>
      have := hsmall e he hd
      simp [this]

/-- C14: when the zip-candidate list is non-empty, nothing fails and no size
reported after an addition exceeds `MAX_ZIP_SIZE`, `zip_and_upload` emits
exactly one unit, the archive `upload_0.agora_upload` with all candidates,
marked delete-after-upload. Every unit `zip_and_upload` emits is marked
delete-after-upload. Below a directory whose files are all smaller than the
chunk size, every file is a zip candidate and no unit is uploaded directly, so
that the archive is the only unit transferred. -/
theorem C14_single_archive (env : ZipEnv) (maxZipSize : Nat) (temp_dir : String)
    (files_to_zip : List UploadFile) (hne : files_to_zip ≠ [])
    (hcreate : env.createErr 0 = none) (hadd : ∀ f ∈ files_to_zip, env.addErr f = none)
    (hsize : ∀ n, 0 < n → n ≤ files_to_zip.length →
      ∀ s, env.zipStat (files_to_zip.take n) = .ok s → s ≤ maxZipSize) :
    (zip_and_upload env maxZipSize temp_dir files_to_zip).emitted =
      [{ unit := { SourcePath := env.join temp_dir (zip_filename 0),
                   TargetPath := zip_filename 0, Delete := true, Imported := false },
         content := files_to_zip }] ∧
    (zip_and_upload env maxZipSize temp_dir files_to_zip).outcome = .returned none ∧
    (∀ (env' : ZipEnv) (m : Nat) (dir : String) (files : List UploadFile),
      ∀ a ∈ (zip_and_upload env' m dir files).emitted, a.unit.Delete = true) ∧
    (∀ (fs : Fs) (chunkSize : Nat) (dir : String) (info : FileInfo),
      fs.stat dir = .ok info → info.IsDir = true →
      (∀ e ∈ fs.walk dir, e.info.IsDir = false → e.info.Size < chunkSize) →
      (analyse_paths fs chunkSize [dir]).files_to_upload = [] ∧
      (analyse_paths fs chunkSize [dir]).files_to_zip = discovered fs dir) := by
  have hlen : 0 < files_to_zip.length := List.length_pos.mpr hne
  have hfill := zip_fill_all env maxZipSize files_to_zip [] hadd
    (by
      intro n h1 h2 s hs
      simp only [List.nil_append] at h2 hs
      exact hsize n (by simpa using h1) h2 s hs)
  have hrun : zip_and_upload env maxZipSize temp_dir files_to_zip =
      { emitted := [{ unit := { SourcePath := env.join temp_dir (zip_filename 0),
                                TargetPath := zip_filename 0, Delete := true, Imported := false },
                      content := files_to_zip }],
        outcome := .returned none } := by
    unfold zip_and_upload
    rw [zip_loop]
    simp only [hlen, if_true, hcreate, List.drop_zero, hfill, List.nil_append, Nat.zero_add]
    obtain ⟨k, hk⟩ : ∃ k, files_to_zip.length = k + 1 := ⟨files_to_zip.length - 1, by omega⟩
    rw [hk, zip_loop]
    have : ¬ (k + 1 < files_to_zip.length) := by omega
    simp [this]
  refine ⟨by rw [hrun], by rw [hrun], ?_, ?_⟩
  · intro env' m dir files a ha
    obtain ⟨-, -, -, h4, -⟩ := zip_loop_spec env' m dir files (files.length + 1) 0
      (by omega) (by omega)
    exact (h4 a ha).2.1
  · intro fs chunkSize dir info h1 h2 h3
    exact analyse_paths_all_small fs chunkSize dir info h1 h2 h3

/-- C14, on scenario A: five files of 10 MiB below one directory, a chunk size
of 100 MiB and a limit of 1 GiB give five zip candidates, no direct unit and a
single archive. -/
theorem C14_single_archive_witness :
    (analyse_paths scenarioAFs UPLOAD_CHUCK_SIZE ["/scan"]).files_to_upload = [] ∧
    (analyse_paths scenarioAFs UPLOAD_CHUCK_SIZE ["/scan"]).files_to_zip.length = 5 ∧
    (zip_and_upload scenarioAZipEnv MAX_ZIP_SIZE "/tmp/agora_app"
        (analyse_paths scenarioAFs UPLOAD_CHUCK_SIZE ["/scan"]).files_to_zip).emitted =
      [{ unit := { SourcePath := "/tmp/agora_app/upload_0.agora_upload",
                   TargetPath := "upload_0.agora_upload", Delete := true, Imported := false },
         content := (analyse_paths scenarioAFs UPLOAD_CHUCK_SIZE ["/scan"]).files_to_zip }] :=
  ⟨by decide, by decide,
   (C14_single_archive scenarioAZipEnv MAX_ZIP_SIZE "/tmp/agora_app"
      (analyse_paths scenarioAFs UPLOAD_CHUCK_SIZE ["/scan"]).files_to_zip
      (by decide) rfl (fun _ _ => rfl)
      (by
        intro n _ hn s hs
        have hs' : tenMiB * ((analyse_paths scenarioAFs UPLOAD_CHUCK_SIZE
            ["/scan"]).files_to_zip.take n).length = s := by
          injection hs
        have h5 : (analyse_paths scenarioAFs UPLOAD_CHUCK_SIZE ["/scan"]).files_to_zip.length
            = 5 := by decide
        have hle := List.length_take_le n
          (analyse_paths scenarioAFs UPLOAD_CHUCK_SIZE ["/scan"]).files_to_zip
        rw [h5] at hn
        rw [← hs']
        calc tenMiB * _ ≤ tenMiB * 5 := Nat.mul_le_mul_left _ (le_trans hle hn)
          _ ≤ MAX_ZIP_SIZE := by decide)).1⟩

/-! ## Retried attempts -/

theorem upload_chunk_values (nre : Option GoError) (reply : Except GoError HttpStatus)
    (values : List (String × Reader)) (fn : String) (fake : Bool) :
    (upload_chunk nre reply values fn fake).values =
      values.map (fun kv => (kv.1, kv.2.drain)) := by
  unfold upload_chunk
  cases nre with
  | some e => rfl
  | none =>
    cases fake with
    | true => rfl
    | false =>
      cases reply with
      | error e => rfl
      | ok status =>
        by_cases h : status.StatusCode = 200 <;> simp [h]

theorem drain_drain (values : List (String × Reader)) :
    (values.map (fun kv => (kv.1, kv.2.drain))).map (fun kv => (kv.1, kv.2.drain)) =
      values.map (fun kv => (kv.1, kv.2.drain)) := by
  rw [List.map_map]
  apply List.map_congr_left
  intro kv _
  obtain ⟨k, r⟩ := kv
  cases r <;> rfl

/-- The forms of the retry loop: the attempt it starts with submits what the
readers hold, every later attempt finds them read to their end. -/
theorem retry_loop_forms (env : UploadEnv) (file : UploadFile) (fake : Bool) (i : Nat) :
    ∀ fuel retries values k form err,
      Event.post i k form err ∈ (retry_loop env file fake i fuel retries values).events →
      retries ≤ k ∧
      (k = retries → form = values.map (formPart (env.base file.SourcePath))) ∧
      (retries < k → form = (values.map (fun kv => (kv.1, kv.2.drain))).map
        (formPart (env.base file.SourcePath))) := by
  intro fuel
  induction fuel with
  | zero => intro retries values k form err h; simp [retry_loop] at h
  | succ f ih =>
    intro retries values k form err hmem
    have hform := upload_chunk_form env.newRequestErr (env.post i retries) values
      (env.base file.SourcePath) fake
    have hvals := upload_chunk_values env.newRequestErr (env.post i retries) values
      (env.base file.SourcePath) fake
    have hhead : ∀ e, Event.post i k form err = Event.post i retries
        (upload_chunk env.newRequestErr (env.post i retries) values
          (env.base file.SourcePath) fake).form e →
        retries ≤ k ∧
        (k = retries → form = values.map (formPart (env.base file.SourcePath))) ∧
        (retries < k → form = (values.map (fun kv => (kv.1, kv.2.drain))).map
          (formPart (env.base file.SourcePath))) := by
      intro e he
      injection he with _ hk hf _
      subst hk
      exact ⟨le_rfl, fun _ => by rw [hf, hform], fun h => absurd h (lt_irrefl _)⟩
    rw [retry_loop] at hmem
    cases hc : (upload_chunk env.newRequestErr (env.post i retries) values
        (env.base file.SourcePath) fake).err with
    | none =>
      simp only [hc, List.mem_singleton] at hmem
      exact hhead _ hmem
    | some e =>
      simp only [hc] at hmem
      by_cases hr : retries + 1 ≥ maxRetries
      · simp only [hr, if_true, List.mem_singleton] at hmem
        exact hhead _ hmem
      · simp only [hr, if_false] at hmem
        rcases List.mem_cons.mp hmem with h | h
        · exact hhead _ h
        · obtain ⟨h1, h2, h3⟩ := ih (retries + 1) _ k form err h
          rw [hvals] at h2 h3
          refine ⟨by omega, fun hk => by omega, ?_⟩
          intro _
          by_cases hk : k = retries + 1
          · exact h2 hk
          · rw [h3 (by omega), drain_drain]

theorem chunk_values_drained (C S N : Nat) (uuid : String) (file : UploadFile) (i : Nat)
    (chunk : List UInt8) (fn : String) :
    ((chunk_values C S N uuid file i chunk).map (fun kv => (kv.1, kv.2.drain))).map
      (formPart fn) = drainedForm fn := by
  simp [chunk_values, Reader.drain, formPart, drainedForm]

/-- Every attempt of the chunk loop after the first one of its chunk submits
the form with an empty payload and empty field values. -/
theorem chunk_loop_forms (env : UploadEnv) (C S N : Nat) (file : UploadFile) (fake : Bool) :
    ∀ left i pos j k form err,
      Event.post j k form err ∈ (chunk_loop env C S N file fake left i pos).events →
      0 < k → form = drainedForm (env.base file.SourcePath) := by
  intro left
  induction left with
  | zero => intro i pos j k form err h; simp [chunk_loop] at h
  | succ l ih =>
    intro i pos j k form err hmem hk
    rw [chunk_loop_succ] at hmem
    have hretry : ∀ chunk, Event.post j k form err ∈ (retry_loop env file fake i maxRetries 0
        (chunk_values C S N env.uuid file i chunk)).events →
        form = drainedForm (env.base file.SourcePath) := by
      intro chunk h
      obtain ⟨k', form', err', he⟩ := retry_loop_posts_only env file fake i _ _ _ _ h
      injection he with hj _ _ _
      subst hj
      rw [(retry_loop_forms env file fake j _ _ _ k form err h).2.2 hk, chunk_values_drained]
    rcases hread : file_Read env C i pos with ⟨chunk, _ | e⟩
    · rw [hread] at hmem
      simp only at hmem
      split at hmem
      · rcases List.mem_cons.mp hmem with h | h
        · cases h
        · exact hretry chunk h
      · rcases List.mem_cons.mp hmem with h | h
        · cases h
        · rcases List.mem_append.mp h with h | h
          · exact hretry chunk h
          · exact ih _ _ j k form err h hk
    · rw [hread] at hmem
      simp only [List.mem_singleton] at hmem
      cases hmem

/-- C15 (the code departs from the claim): every upload attempt of `upload_file`
after the first one of its chunk submits a form with an empty binary payload
and empty metadata field values. The readers in `values` are created once per
chunk, and the first `upload_chunk` call reads them to their end. The first
attempt of a chunk with a non-empty payload submits a different form. -/
theorem C15_retry_sends_drained_form (env : UploadEnv) (chunkSize : Nat) (file : UploadFile)
    (fake : Bool) (fuel : Nat) (i k : Nat) (form : List FormPart) (err : Option GoError)
    (hmem : Event.post i k form err ∈ (upload_file env chunkSize file fake fuel).events)
    (hk : 0 < k) :
    form = drainedForm (env.base file.SourcePath) ∧
    (∀ (S N j : Nat) (chunk : List UInt8), chunk ≠ [] →
      (chunk_values chunkSize S N env.uuid file j chunk).map
        (formPart (env.base file.SourcePath)) ≠ drainedForm (env.base file.SourcePath)) := by
  constructor
  · cases hs : env.stat with
    | error e =>
      rw [upload_file_events_nil env chunkSize file fake fuel (Or.inl ⟨e, hs⟩)] at hmem
      cases hmem
    | ok S =>
      cases ho : env.openErr with
      | some e =>
        rw [upload_file_events_nil env chunkSize file fake fuel (Or.inr ⟨e, ho⟩)] at hmem
        cases hmem
      | none =>
        obtain ⟨h1, h2⟩ := upload_file_events env chunkSize file fake fuel S hs ho
        have hloop : Event.post i k form err ∈ (chunk_loop env chunkSize S
            (nof_chunks S chunkSize) file fake (nof_chunks S chunkSize) 0 0).events := by
          cases hf : (chunk_loop env chunkSize S (nof_chunks S chunkSize) file fake
              (nof_chunks S chunkSize) 0 0).chunk_failed with
          | true => rw [(h1 hf).1] at hmem; exact hmem
          | false =>
            rcases h2 hf with he | ⟨p, he⟩
            · rw [he] at hmem; exact hmem
            · rw [he] at hmem
              rcases List.mem_append.mp hmem with h | h
              · exact h
              · simp at h
        exact chunk_loop_forms env chunkSize S _ file fake _ _ _ i k form err hloop hk
  · intro S N j chunk hne heq
    simp only [chunk_values, drainedForm, formPart, List.map_cons] at heq
    injection heq with hhead _
    injection hhead with _ _ hdata
    exact hne hdata

/-- C15, at a concrete unit: the first chunk `[1, 2]` is rejected; the second
attempt submits an empty payload and empty fields, while the first one carried
the two bytes. -/
theorem C15_retry_sends_drained_form_witness :
    Event.post 0 1 (drainedForm "/data/a.bin") (some "bad status: 500 Internal Server Error") ∈
      (upload_file rejectingEnv 2 sampleFile false 5).events ∧
    FormPart.file "file" "/data/a.bin" [1, 2] ∈
      chunkForm rejectingEnv 2 5 3 sampleFile 0 ∧
    Event.post 0 0 (chunkForm rejectingEnv 2 5 3 sampleFile 0) (some "bad status: 500 Internal Server Error") ∈
      (upload_file rejectingEnv 2 sampleFile false 5).events ∧
    (List.map (formPart (rejectingEnv.base sampleFile.SourcePath))
        (chunk_values 2 5 3 rejectingEnv.uuid sampleFile 0 [1, 2])) ≠
      drainedForm (rejectingEnv.base sampleFile.SourcePath) :=
  ⟨by decide, by decide, by decide,
   (C15_retry_sends_drained_form rejectingEnv 2 sampleFile false 5 0 1
      (drainedForm "/data/a.bin") (some "bad status: 500 Internal Server Error") (by decide) (by decide)).2
      5 3 0 [1, 2] (by decide)⟩

/-! ## The result of the reconciliation -/

/-- The two results of `update_import_state` are determined by the reply to the
request for the import result alone. -/
theorem update_import_state_indep (env env' : ImportEnv) (files files' : List UploadFile)
    (h : env'.result = env.result) :
    (update_import_state env' files').err = (update_import_state env files).err ∧
    (update_import_state env' files').success = (update_import_state env files).success := by
  unfold update_import_state
  rw [h]
  cases env.result with
  | transport e => exact ⟨rfl, rfl⟩
  | response status body =>
    by_cases hs : status ≠ 200
    · simp [hs]
    · simp only [hs, if_false]
      cases body with
      | error e => exact ⟨rfl, rfl⟩
      | ok data =>
        simp only
        split <;> exact ⟨rfl, rfl⟩

theorem update_import_state_true (env : ImportEnv) (files : List UploadFile)
    (h : (update_import_state env files).err = none) :
    (update_import_state env files).success = true := by
  unfold update_import_state at h ⊢
  cases hr : env.result with
  | transport e => rw [hr] at h; simp at h
  | response status body =>
    rw [hr] at h
    by_cases hs : status ≠ 200
    · simp [hs] at h
    · simp only [hs, if_false] at h ⊢
      cases body with
      | error e => simp at h
      | ok data =>
        simp only
        split <;> rfl

/-- The progress loop gives the same result for two environments that differ
only in what the reconciliation reads from the disk and in the unit list. -/
theorem progress_loop_indep (env env' : WaitEnv) (allFiles allFiles' : List UploadFile)
    (verify : Bool) (timeout : Int)
    (hreply : env'.progressReply = env.progressReply) (hin : env'.inTime = env.inTime)
    (hres : env'.importEnv.result = env.importEnv.result) :
    ∀ fuel k, progress_loop env' allFiles' verify timeout fuel k =
      progress_loop env allFiles verify timeout fuel k := by
  obtain ⟨h1, h2⟩ := update_import_state_indep env.importEnv env'.importEnv allFiles allFiles' hres
  intro fuel
  induction fuel with
  | zero => intro k; rfl
  | succ f ih =>
    intro k
    rw [progress_loop, progress_loop, hreply, hin, h1, h2, ih (k + 1)]

/-- C16: whenever `update_import_state` returns without an error its boolean
result is `true`, for every unit list and every reply, so the condition of the
"Not all files were imported successfully" branch of `upload` (no error and a
`false` result) never holds; and the result of `upload` in verify mode is the
same for every outcome of the local hash computation and for every unit list:
it does not depend on any hash comparison. -/
theorem C16_success_always_true (env : ImportEnv) (files : List UploadFile) :
    ((update_import_state env files).err = none →
      (update_import_state env files).success = true) ∧
    ¬ ((update_import_state env files).err = none ∧
      (update_import_state env files).success = false) ∧
    (∀ (wenv : WaitEnv) (allFiles allFiles' : List UploadFile) (wait : Bool) (timeout : Int)
      (fuel : Nat) (sha1' : String → Except GoError String),
      upload_wait { wenv with importEnv := { wenv.importEnv with sha1 := sha1' } }
          allFiles' wait true timeout fuel =
        upload_wait wenv allFiles wait true timeout fuel) := by
  refine ⟨update_import_state_true env files, ?_, ?_⟩
  · rintro ⟨h1, h2⟩
    rw [update_import_state_true env files h1] at h2
    cases h2
  · intro wenv allFiles allFiles' wait timeout fuel sha1'
    have key := progress_loop_indep wenv
      { wenv with importEnv := { wenv.importEnv with sha1 := sha1' } }
      allFiles allFiles' true timeout rfl rfl rfl fuel 0
    simp only [upload_wait, Bool.or_true, if_true]
    rw [key]

/-- C16, on a reconciliation in which the local hash does not match the
reported one: the result is still `true`. -/
theorem C16_success_always_true_witness :
    (update_import_state { sampleImportEnv with sha1 := fun _ => .ok "ffff" } [sampleUnit]).log =
      [{ status := "FAILED:  ", file := sampleUnit }] ∧
    (update_import_state { sampleImportEnv with sha1 := fun _ => .ok "ffff" }
      [sampleUnit]).success = true :=
  ⟨by decide,
   (C16_success_always_true { sampleImportEnv with sha1 := fun _ => .ok "ffff" }
      [sampleUnit]).1 (by decide)⟩


end Agora
